import Mathlib

/-!
Verification of `macanolli/KnowledgeBaseMCP` (`src/database.py`) against its
natural-language specification.

Strings are modelled as `List Char`; the Python string operations used by the
source (`str.split`, `str.strip`, `str.startswith`, `in`, `str.lower`,
`str.join`) are given faithful executable definitions over `List Char`,
restricted to the ASCII fragment where Python behaviour is Unicode-aware
(`str.lower`, `\w`, `\s`).  SQLite is modelled as an in-memory list of rows;
the filesystem as an association list from path to file content.
-/

namespace KBMCP

/-- Convenience: the character list of a string literal. -/
def chars (s : String) : List Char := s.data

/-- Python `\s` on ASCII: space, tab, newline, carriage return, vertical tab, form feed. -/
def isPySpace (c : Char) : Bool :=
  c = ' ' || c = '\t' || c = '\n' || c = '\x0d' || c = '\x0b' || c = '\x0c'

/-- Python `\w` on ASCII: letters, digits, underscore. -/
def isWordChar (c : Char) : Bool :=
  (97 ≤ c.toNat && c.toNat ≤ 122) || (65 ≤ c.toNat && c.toNat ≤ 90) ||
  (48 ≤ c.toNat && c.toNat ≤ 57) || c = '_'

/-- Python `str.lower` on ASCII: map `A`-`Z` to `a`-`z`, leave the rest alone. -/
def pyLower (c : Char) : Char :=
  if 65 ≤ c.toNat && c.toNat ≤ 90 then Char.ofNat (c.toNat + 32) else c

/-- Drop the trailing run of characters satisfying `p` (helper for Python `strip`). -/
def dropTrail (p : Char → Bool) (l : List Char) : List Char :=
  (l.reverse.dropWhile p).reverse

/-- Python `str.strip(chars)`: drop leading and trailing characters satisfying `p`. -/
def pyStrip (p : Char → Bool) (l : List Char) : List Char :=
  dropTrail p (l.dropWhile p)

/-- Python `str.strip()` with no argument: strip whitespace from both ends. -/
def pyStripWs (l : List Char) : List Char := pyStrip isPySpace l

/-- Python `value.strip('"').strip("'")` as used by the frontmatter parser:
first every leading/trailing double quote goes, then every leading/trailing
single quote. -/
def pyStripQuotes (l : List Char) : List Char :=
  pyStrip (fun c => c = '\'') (pyStrip (fun c => c = '"') l)

/-- Split a list at the first occurrence of the (non-empty) pattern `pat`:
`some (before, after)`, or `none` when `pat` does not occur.  This is the
primitive underlying Python `str.split(sep, maxsplit)`. -/
def splitFirst (pat : List Char) : List Char → Option (List Char × List Char)
  | [] => none
  | c :: rest =>
    if pat.isPrefixOf (c :: rest) then some ([], (c :: rest).drop pat.length)
    else (splitFirst pat rest).map (fun q => (c :: q.1, q.2))

/-- Python `pat in s` for strings: `pat` occurs contiguously in `s`. -/
def pyIn (pat s : List Char) : Bool := (splitFirst pat s).isSome

/-- Python `str.split(sep, maxsplit)` for a non-empty separator, with the
maximum number of splits given as fuel. -/
def pySplitMax (pat : List Char) : Nat → List Char → List (List Char)
  | 0, s => [s]
  | n + 1, s =>
    match splitFirst pat s with
    | none => [s]
    | some q => q.1 :: pySplitMax pat n q.2

/-- Python `str.split(sep)` with no `maxsplit`: the string's length is always
enough fuel since each separator occurrence consumes at least one character. -/
def pySplitAll (pat : List Char) (s : List Char) : List (List Char) :=
  pySplitMax pat s.length s

/-- Python `sep.join(parts)`. -/
def pyJoin (sep : List Char) : List (List Char) → List Char
  | [] => []
  | [x] => x
  | x :: y :: rest => x ++ sep ++ pyJoin sep (y :: rest)

/-- Insert into a Python-`dict`-like association list: an existing key keeps
its position and gets the new value, a new key is appended. -/
def dictInsert (fm : List (List Char × List Char)) (k v : List Char) :
    List (List Char × List Char) :=
  if fm.any (fun p => p.1 = k) then fm.map (fun p => if p.1 = k then (k, v) else p)
  else fm ++ [(k, v)]

/-- Python `dict.get(k, d)` on the association-list model. -/
def dictGet (fm : List (List Char × List Char)) (k d : List Char) : List Char :=
  match fm.find? (fun p => p.1 = k) with
  | some p => p.2
  | none => d

/-- One line of frontmatter text, as processed inside `extract_frontmatter`:
`if ":" in line: key, value = line.split(":", 1)`, key trimmed, value trimmed
then quote-stripped, then stored in the dict.  A line with no `:` is skipped. -/
def fmParseLine (fm : List (List Char × List Char)) (line : List Char) :
    List (List Char × List Char) :=
  match splitFirst [':'] line with
  | some q => dictInsert fm (pyStripWs q.1) (pyStripQuotes (pyStripWs q.2))
  | none => fm

/-- `extract_frontmatter` from `src/database.py`: if the content starts with
`---` and `content.split("---", 2)` yields at least three parts, the middle
part is parsed line by line into the metadata dict and the trailing part,
stripped, becomes the body; otherwise the whole input is the body. -/
def extract_frontmatter (content : List Char) :
    List (List Char × List Char) × List Char :=
  if (chars "---").isPrefixOf content then
    match pySplitMax (chars "---") 2 content with
    | _ :: fm_text :: body :: _ =>
      ((pySplitAll ['\n'] (pyStripWs fm_text)).foldl fmParseLine [], pyStripWs body)
    | _ => ([], content)
  else ([], content)

/-- Attempt of the Python regex `^#\s+(.+)$` (MULTILINE) at one position that
is already known to be a line start: a `#`, then a greedy maximal whitespace
run (which, like Python `\s`, may cross newlines), then at least one
non-newline character, captured up to the end of that line.  When the
whitespace run hits the end of the input the regex engine backtracks until
`.+` can still consume one character, which yields the last non-newline
whitespace character of the run. -/
def h1TryAt (s : List Char) : Option (List Char) :=
  match s with
  | '#' :: rest =>
    let w := rest.takeWhile isPySpace
    let t := rest.dropWhile isPySpace
    if w.isEmpty then none
    else
      match t with
      | _ :: _ => some (t.takeWhile (fun c => c ≠ '\n'))
      | [] =>
        match w.reverse.dropWhile (fun c => c = '\n') with
        | c :: _ => some [c]
        | [] => none
  | _ => none

/-- Leftmost-match search for `^#\s+(.+)$` (MULTILINE): try every line start
from left to right.  Fuel-driven; each step consumes at least the next
newline, so `length + 1` fuel always suffices. -/
def reSearchH1Go : Nat → List Char → Option (List Char)
  | 0, _ => none
  | n + 1, s =>
    match h1TryAt s with
    | some t => some t
    | none =>
      match splitFirst ['\n'] s with
      | some q => reSearchH1Go n q.2
      | none => none

/-- `re.search(r'^#\s+(.+)$', body, re.MULTILINE)`, returning `group(1)`. -/
def re_search_h1 (body : List Char) : Option (List Char) :=
  reSearchH1Go (body.length + 1) body

/-- Python `Path.name`: the final path component. -/
def pathName (p : List Char) : List Char := (pySplitAll ['/'] p).getLastD []

/-- Python `Path.stem`: the final component without its last suffix; a name
whose only dot is the leading one (such as `.md`) keeps it. -/
def pathStem (p : List Char) : List Char :=
  let n := pathName p
  match splitFirst ['.'] n.reverse with
  | some q => if q.2 = [] then n else q.2.reverse
  | none => n

/-- One row of the `notes` table (§3 Note Record). -/
structure NoteRecord where
  filepath : List Char
  filename : List Char
  title : List Char
  content : List Char
  tags : List Char
  created_at : List Char
  modified_at : List Char
  indexed_at : List Char
deriving DecidableEq

/-- `index_file` from `src/database.py`, with the file read and the three
timestamps supplied by the environment (the file content and the `stat` /
`datetime.now` results).  The Python `isinstance(tags, list)` branch is
unreachable in the source — `extract_frontmatter` only ever stores strings in
the dict — so the record's tags field is the dict value (or `""`). -/
def index_file (filepath content created_at modified_at indexed_at : List Char) :
    NoteRecord :=
  let fm_body := extract_frontmatter content
  let title0 := dictGet fm_body.1 (chars "title") []
  let title1 :=
    if title0 = [] then
      match re_search_h1 fm_body.2 with
      | some t => t
      | none => pathStem filepath
    else title0
  let tags := dictGet fm_body.1 (chars "tags") []
  ⟨filepath, pathName filepath, title1, fm_body.2, tags,
    created_at, modified_at, indexed_at⟩

/-- The note tree on disk: whether the root directory exists, and the `.md`
files under it (path plus current content), as enumerated by `rglob("*.md")`. -/
structure FileSystem where
  rootExists : Bool
  files : List (List Char × List Char)

/-- `INSERT OR REPLACE` keyed on the `UNIQUE` column `filepath`, as performed
by both statements of the indexing loop (notes row and its FTS projection are
updated together; the model keeps the single authoritative row). -/
def upsert_note (db : List NoteRecord) (r : NoteRecord) : List NoteRecord :=
  if db.any (fun q => q.filepath = r.filepath) then
    db.map (fun q => if q.filepath = r.filepath then r else q)
  else db ++ [r]

/-- `index_directory` from `src/database.py`: bootstrap branch when the root
does not exist (create it, return `(0, 0)`, database untouched); otherwise
delete the orphaned rows (in the database but not on disk) and re-index every
file on disk.  Per-file indexing is assumed to succeed (the claim under
verification assumes exactly this), so the `try/except` around `index_file`
never fires; `ctimeF`/`mtimeF`/`now` supply the `stat` timestamps and the
wall clock. -/
def index_directory (ctimeF mtimeF : List Char → List Char) (now : List Char)
    (fs : FileSystem) (db : List NoteRecord) :
    FileSystem × List NoteRecord × Nat × Nat :=
  if fs.rootExists then
    (fs,
      -- steps 3-4: delete every orphaned row, then index/update every file
      fs.files.foldl
        (fun d f => upsert_note d (index_file f.1 f.2 (ctimeF f.1) (mtimeF f.1) now))
        (db.filter (fun r => decide (r.filepath ∈ fs.files.map Prod.fst))),
      -- indexed_count: one per file on disk (every per-file step succeeds)
      fs.files.length,
      -- removed_count: one per orphaned filepath
      ((db.map NoteRecord.filepath).filter
        (fun p => decide (p ∉ fs.files.map Prod.fst))).length)
  else (⟨true, []⟩, db, 0, 0)

/-- `re.sub(r'[-\s]+', '-', s)`: every maximal run of hyphens/whitespace
becomes one hyphen.  The flag records whether the previous character was part
of such a run. -/
def collapseRunsGo : List Char → Bool → List Char
  | [], _ => []
  | c :: rest, inRun =>
    if c = '-' || isPySpace c then
      if inRun then collapseRunsGo rest true else '-' :: collapseRunsGo rest true
    else c :: collapseRunsGo rest false

def collapseRuns (l : List Char) : List Char := collapseRunsGo l false

/-- The per-component sanitization of `create_note_file`:
`re.sub(r'[^\w\s-]', '', part.lower())` then `re.sub(r'[-\s]+', '-', ·).strip('-')`. -/
def sanitize_part (part : List Char) : List Char :=
  pyStrip (fun c => c = '-')
    (collapseRuns
      ((part.map pyLower).filter (fun c => isWordChar c || isPySpace c || c = '-')))

/-- The sanitization loop of `create_note_file`: sanitize each component,
returning the first offending raw component (empty or `.`/`..` after
sanitization) as the error, in loop order. -/
def sanitize_parts : List (List Char) → Except (List Char) (List (List Char))
  | [] => Except.ok []
  | p :: rest =>
    if sanitize_part p = [] || sanitize_part p = chars "." ||
        sanitize_part p = chars ".." then Except.error p
    else
      match sanitize_parts rest with
      | Except.error q => Except.error q
      | Except.ok t => Except.ok (sanitize_part p :: t)

/-- `Path(kb_dir) / relative_dir / filename` with
`filename = sanitized_parts[-1] + ".md"` and
`relative_dir = Path(*sanitized_parts[:-1])`. -/
def compose_filepath (kb_dir : List Char) (parts : List (List Char)) : List Char :=
  kb_dir ++ '/' :: pyJoin ['/'] (parts.dropLast ++ [parts.getLastD [] ++ chars ".md"])

/-- The tail of `create_note_file` after a successful sanitization loop:
the security check (`Path.resolve` on both paths, then `startswith`), the
existence check, and the formatted write, in source order.  Factored out of
`create_note_file` so each check can be reasoned about in isolation. -/
def create_note_file_checked (resolveF : List Char → List Char)
    (fs : List (List Char × List Char)) (kb_dir title content tags : List Char)
    (sparts : List (List Char)) :
    (List Char × List Char) × List (List Char × List Char) :=
  if (resolveF kb_dir).isPrefixOf (resolveF (compose_filepath kb_dir sparts)) then
    if (fs.find? (fun f => f.1 = compose_filepath kb_dir sparts)).isSome then
      ((compose_filepath kb_dir sparts,
        chars "Note \x27" ++ pyJoin ['/'] sparts ++
          chars "\x27 already exists. Use update_note to modify it."), fs)
    else
      ((compose_filepath kb_dir sparts, []),
        dictInsert fs (compose_filepath kb_dir sparts)
          ((if tags = [] then [] else
            chars "---\ntitle: " ++ title ++ chars "\ntags: " ++ tags ++
              chars "\n---\n\n") ++
            chars "# " ++ title ++ chars "\n\n" ++ content))
  else
    (([], chars "Invalid path: attempt to write outside knowledge base directory"), fs)

/-- `create_note_file` from `src/database.py`.  `resolveF` stands for
`Path.resolve` — symlink resolution performed by the operating system, outside
the program — and `fs` is the path → content map of the files on disk.
Returns the `(filepath, error_message)` pair of the source (`Path()` modelled
as `[]`) together with the filesystem after the call. -/
def create_note_file (resolveF : List Char → List Char)
    (fs : List (List Char × List Char)) (kb_dir title content tags : List Char) :
    (List Char × List Char) × List (List Char × List Char) :=
  match sanitize_parts (pySplitAll ['/'] title) with
  | Except.error part =>
    (([], chars "Invalid path component in title: \x27" ++ part ++ [ '\x27' ]), fs)
  | Except.ok sparts => create_note_file_checked resolveF fs kb_dir title content tags sparts

/-- The frontmatter re-serialization inside `update_note_file`:
`"\n".join(["---"] + [f"{k}: {v}" ...] + ["---\n"])`. -/
def serialize_frontmatter (fm : List (List Char × List Char)) : List Char :=
  pyJoin ['\n'] (chars "---" :: (fm.map (fun p => p.1 ++ chars ": " ++ p.2) ++ [chars "---\n"]))

/-- `update_note_file` from `src/database.py`: NotFound when the file is
absent; otherwise re-serialize the parsed frontmatter (when non-empty) ahead
of the new content.  Returns the error message (empty on success) and the
filesystem after the call. -/
def update_note_file (fs : List (List Char × List Char)) (filepath content : List Char) :
    List Char × List (List Char × List Char) :=
  match fs.find? (fun f => f.1 = filepath) with
  | none => (chars "Note not found at " ++ filepath, fs)
  | some f =>
    ([], dictInsert fs filepath
      (if (extract_frontmatter f.2).1 = [] then content
       else serialize_frontmatter (extract_frontmatter f.2).1 ++ '\n' :: content))

/-- The error-text indicators shared by `git_commit_and_push` and
`git_pull_from_remote`. -/
def network_indicators : List (List Char) :=
  [ chars "network", chars "connection", chars "timed out",
    chars "could not resolve", chars "failed to connect" ]

/-- `any(indicator in error_str for indicator in [...])` over the lowercased
error text. -/
def is_network_error (e : List Char) : Bool :=
  network_indicators.any (fun ind => pyIn ind (e.map pyLower))

/-- The message produced by the `except GitCommandError` branch around
pull/push in `git_commit_and_push` (the commit itself has already succeeded). -/
def commit_push_sync_error_message (e : List Char) : List Char :=
  if is_network_error e then
    chars "Saved locally but couldn\x27t sync to GitHub (no internet connection). Changes will sync automatically when internet is restored."
  else
    chars "Saved locally but couldn\x27t sync to GitHub: " ++ e ++
      chars ". Changes will sync on next successful operation."

/-- The message produced by the `except GitCommandError` branch around
`origin.fetch` in `git_pull_from_remote`. -/
def pull_fetch_error_message (e : List Char) : List Char :=
  if is_network_error e then
    chars "Couldn\x27t sync with GitHub (no internet connection). Your local files are safe and will sync when internet is restored."
  else
    chars "Couldn\x27t sync with GitHub: " ++ e ++ chars ". Your local files are safe."

/-- SQLite `LIMIT ?`: a negative limit means no upper bound, `0` returns no
rows (SQLite language documentation for the LIMIT clause). -/
def sqlLimit (limit : Int) (rows : List α) : List α :=
  if limit < 0 then rows else rows.take limit.toNat

def insertRanked (le : α → α → Bool) (a : α) : List α → List α
  | [] => [a]
  | b :: t => if le a b then a :: b :: t else b :: insertRanked le a t

/-- `ORDER BY`, modelled as a stable insertion sort by the given comparison. -/
def sortRanked (le : α → α → Bool) : List α → List α
  | [] => []
  | a :: t => insertRanked le a (sortRanked le t)

/-- SQLite text comparison (memcmp order) for `ORDER BY modified_at DESC`. -/
def lexLe : List Char → List Char → Bool
  | [], _ => true
  | _ :: _, [] => false
  | a :: x, b :: y => if a = b then lexLe x y else decide (a.toNat < b.toNat)

/-- `search_notes_db` from `src/database.py`: the FTS `MATCH` predicate, the
relevance order and the `snippet(...)` projection are behaviour of the SQLite
FTS5 engine and enter the model as parameters; the query shape
(`WHERE ... MATCH ? ORDER BY rank LIMIT ?` over the joined rows, projected to
title/filepath/filename/tags/snippet) is the code's. -/
def search_notes_db (matchP : NoteRecord → Bool) (rankLe : NoteRecord → NoteRecord → Bool)
    (snippetF : NoteRecord → List Char) (db : List NoteRecord) (limit : Int) :
    List (List Char × List Char × List Char × List Char × List Char) :=
  (sqlLimit limit (sortRanked rankLe (db.filter matchP))).map
    (fun n => (n.title, n.filepath, n.filename, n.tags, snippetF n))

/-- `get_recent_notes` from `src/database.py`:
`SELECT title, filepath, filename, modified_at, tags FROM notes ORDER BY modified_at DESC LIMIT ?`. -/
def get_recent_notes (db : List NoteRecord) (limit : Int) :
    List (List Char × List Char × List Char × List Char × List Char) :=
  (sqlLimit limit (sortRanked (fun a b => lexLe b.modified_at a.modified_at) db)).map
    (fun n => (n.title, n.filepath, n.filename, n.modified_at, n.tags))

/-- The character set the spec ascribes to sanitized path segments
(claim C9): lowercase ASCII letters, digits, underscore, hyphen. -/
def allowed_segment_char (c : Char) : Bool :=
  (97 ≤ c.toNat && c.toNat ≤ 122) || (48 ≤ c.toNat && c.toNat ≤ 57) ||
    c = '_' || c = '-'

/-- Sample record used to instantiate closed statements. -/
def sampleRecord : NoteRecord :=
  ⟨chars "/kb/a.md", chars "a.md", chars "a", chars "body", [],
    chars "c", chars "m", chars "i"⟩

/-- An operating-system path resolution in which `/kb/evil.md` is a symlink
whose target lies in the sibling directory `/kbx` (a directory whose name
extends the root's); every other path resolves to itself. -/
def resolveThroughSymlink (p : List Char) : List Char :=
  if p = chars "/kb/evil.md" then chars "/kbx/evil.md" else p

/-- The spec's notion for C2: `p` is a descendant of `root` (equal to it or
strictly below it, at a path-component boundary).  Stated from the spec's
words for comparison with the code's string-prefix check. -/
def is_descendant_path (p root : List Char) : Bool :=
  p = root || (root ++ ['/']).isPrefixOf p

/-- The spec's characterization for C7, from its words: the error text
indicates connection refusal, DNS resolution failure, or a timeout. -/
def indicates_refusal_dns_or_timeout (e : List Char) : Bool :=
  pyIn (chars "connection refused") (e.map pyLower) ||
  pyIn (chars "could not resolve") (e.map pyLower) ||
  pyIn (chars "timed out") (e.map pyLower)

/-! ### Basic lemmas about the Python string primitives -/

theorem char_toNat_ofNat_of_valid (n : Nat) (hv : n.isValidChar) :
    (Char.ofNat n).toNat = n := by
  unfold Char.ofNat
  rw [dif_pos hv]
  simp [Char.ofNatAux, Char.toNat, UInt32.toNat, BitVec.toNat_ofNatLt]

theorem pyLower_not_upper (c : Char) :
    ¬ (65 ≤ (pyLower c).toNat ∧ (pyLower c).toNat ≤ 90) := by
  unfold pyLower
  by_cases hc : 65 ≤ c.toNat && c.toNat ≤ 90
  · rw [if_pos hc]
    simp only [Bool.and_eq_true, decide_eq_true_eq] at hc
    have hv : (c.toNat + 32).isValidChar := Or.inl (by omega)
    rw [char_toNat_ofNat_of_valid _ hv]
    omega
  · rw [if_neg hc]
    simp only [Bool.and_eq_true, decide_eq_true_eq, not_and] at hc
    omega

theorem dropWhile_cons_neg {p : Char → Bool} {c : Char} {l : List Char}
    (hc : p c = false) : List.dropWhile p (c :: l) = c :: l := by
  simp [List.dropWhile_cons, hc]

theorem takeWhile_cons_neg {p : Char → Bool} {c : Char} {l : List Char}
    (hc : p c = false) : List.takeWhile p (c :: l) = [] := by
  simp [List.takeWhile_cons, hc]

theorem dropWhile_eq_self_of_head {p : Char → Bool} {l : List Char}
    (hc : ∀ c, l.head? = some c → p c = false) : List.dropWhile p l = l := by
  cases l with
  | nil => rfl
  | cons a t => exact dropWhile_cons_neg (hc a rfl)

theorem dropWhile_all_false {p : Char → Bool} {l : List Char}
    (hall : ∀ c ∈ l, p c = false) : List.dropWhile p l = l := by
  induction l with
  | nil => rfl
  | cons a t ih =>
    rw [dropWhile_cons_neg (hall a (List.mem_cons_self a t))]

theorem dropTrail_concat (p : Char → Bool) (l : List Char) (a : Char) :
    dropTrail p (l ++ [a]) = if p a then dropTrail p l else l ++ [a] := by
  unfold dropTrail
  rw [List.reverse_append]
  simp only [List.reverse_cons, List.reverse_nil, List.nil_append, List.singleton_append,
    List.dropWhile_cons]
  by_cases ha : p a
  · simp [ha]
  · simp [ha]

theorem dropTrail_append (p : Char → Bool) (a b : List Char) :
    dropTrail p (a ++ b) =
      if dropTrail p b = [] then dropTrail p a else a ++ dropTrail p b := by
  unfold dropTrail
  rw [List.reverse_append, List.dropWhile_append]
  by_cases hb : List.dropWhile p b.reverse = []
  · simp [hb]
  · have hb2 : (List.dropWhile p b.reverse).isEmpty = false := by
      simpa [List.isEmpty_iff] using hb
    have hb3 : ¬ (List.dropWhile p b.reverse).reverse = [] := by
      simpa [List.reverse_eq_nil_iff] using hb
    rw [hb2]
    simp [hb3]

theorem dropTrail_eq_self_of_getLast {p : Char → Bool} {l : List Char}
    (hc : ∀ c, l.getLast? = some c → p c = false) : dropTrail p l = l := by
  unfold dropTrail
  rw [dropWhile_eq_self_of_head, List.reverse_reverse]
  intro c hcr
  exact hc c (by rwa [← List.head?_reverse])

theorem dropTrail_all_false {p : Char → Bool} {l : List Char}
    (hall : ∀ c ∈ l, p c = false) : dropTrail p l = l := by
  unfold dropTrail
  rw [dropWhile_all_false, List.reverse_reverse]
  intro c hcm
  exact hall c (List.mem_reverse.mp hcm)

theorem pyStrip_eq_self {p : Char → Bool} {l : List Char}
    (hh : ∀ c, l.head? = some c → p c = false)
    (hl : ∀ c, l.getLast? = some c → p c = false) : pyStrip p l = l := by
  unfold pyStrip
  rw [dropWhile_eq_self_of_head hh, dropTrail_eq_self_of_getLast hl]

theorem mem_of_mem_dropTrail {p : Char → Bool} {l : List Char} {c : Char}
    (hc : c ∈ dropTrail p l) : c ∈ l := by
  unfold dropTrail at hc
  rw [List.mem_reverse] at hc
  exact List.mem_reverse.mp ((List.dropWhile_sublist p).mem hc)

theorem mem_of_mem_pyStrip {p : Char → Bool} {l : List Char} {c : Char}
    (hc : c ∈ pyStrip p l) : c ∈ l :=
  (List.dropWhile_sublist p).mem (mem_of_mem_dropTrail hc)

/-! ### Lemmas about `splitFirst`, `pyIn` and `pySplitMax` -/

theorem isPrefixOf_append_self (l x : List Char) : l.isPrefixOf (l ++ x) = true :=
  List.isPrefixOf_iff_prefix.mpr (List.prefix_append l x)

theorem splitFirst_cons (pat : List Char) (c : Char) (rest : List Char) :
    splitFirst pat (c :: rest) =
      if pat.isPrefixOf (c :: rest) then some ([], (c :: rest).drop pat.length)
      else (splitFirst pat rest).map (fun q => (c :: q.1, q.2)) := rfl

theorem splitFirst_decomp {pat s a b : List Char}
    (hs : splitFirst pat s = some (a, b)) : s = a ++ pat ++ b := by
  induction s generalizing a b with
  | nil => simp [splitFirst] at hs
  | cons c rest ih =>
    rw [splitFirst_cons] at hs
    by_cases hp : pat.isPrefixOf (c :: rest) = true
    · rw [if_pos hp] at hs
      obtain ⟨t, ht⟩ := List.isPrefixOf_iff_prefix.mp hp
      injection hs with hs1
      injection hs1 with ha hb
      subst ha
      rw [← ht, List.drop_left] at hb
      subst hb
      simp [← ht]
    · rw [if_neg hp] at hs
      cases hq : splitFirst pat rest with
      | none => rw [hq] at hs; simp at hs
      | some q =>
        rw [hq] at hs
        injection hs with hs1
        injection hs1 with ha hb
        subst hb
        cases q with
        | mk q1 q2 =>
          have hr := ih hq
          subst ha
          simp [hr]

theorem splitFirst_prefixOf (pat r : List Char) (hp : pat ≠ []) :
    splitFirst pat (pat ++ r) = some ([], r) := by
  cases pat with
  | nil => exact absurd rfl hp
  | cons p pt =>
    rw [List.cons_append, splitFirst_cons, ← List.cons_append,
      if_pos (isPrefixOf_append_self _ _), List.drop_left]

theorem splitFirst_single_none {c : Char} {s : List Char} (hc : c ∉ s) :
    splitFirst [c] s = none := by
  induction s with
  | nil => rfl
  | cons a t ih =>
    have hca : ¬ c = a := fun hh => hc (hh ▸ List.mem_cons_self a t)
    have hpre : [c].isPrefixOf (a :: t) = false := by
      simp only [List.isPrefixOf, Bool.and_eq_false_iff, beq_eq_false_iff_ne, ne_eq]
      exact Or.inl hca
    rw [splitFirst_cons, hpre]
    simp only [Bool.false_eq_true, if_false]
    rw [ih (fun hm => hc (List.mem_cons_of_mem a hm))]
    rfl

theorem splitFirst_single_append {c : Char} {a : List Char} (b : List Char) (hc : c ∉ a) :
    splitFirst [c] (a ++ c :: b) = some (a, b) := by
  induction a with
  | nil => exact splitFirst_prefixOf [c] b (by simp)
  | cons d a' ih =>
    have hcd : ¬ c = d := fun hh => hc (hh ▸ List.mem_cons_self d a')
    have hpre : [c].isPrefixOf (d :: (a' ++ c :: b)) = false := by
      simp only [List.isPrefixOf, Bool.and_eq_false_iff, beq_eq_false_iff_ne, ne_eq]
      exact Or.inl hcd
    rw [List.cons_append, splitFirst_cons, hpre]
    simp only [Bool.false_eq_true, if_false]
    rw [ih (fun hm => hc (List.mem_cons_of_mem d hm))]
    rfl

theorem pyIn_false_of_splitFirst_none {pat s : List Char}
    (hs : splitFirst pat s = none) : pyIn pat s = false := by
  unfold pyIn
  rw [hs]
  rfl

theorem splitFirst_none_of_pyIn_false {pat s : List Char}
    (hs : pyIn pat s = false) : splitFirst pat s = none := by
  unfold pyIn at hs
  cases hq : splitFirst pat s with
  | none => rfl
  | some q => rw [hq] at hs; simp at hs

theorem pyIn_cons_false {pat : List Char} {c : Char} {s : List Char}
    (hc : pyIn pat (c :: s) = false) : pyIn pat s = false := by
  have hn := splitFirst_none_of_pyIn_false hc
  unfold splitFirst at hn
  by_cases hp : pat.isPrefixOf (c :: s) = true
  · rw [if_pos hp] at hn; simp at hn
  · rw [if_neg hp] at hn
    cases hq : splitFirst pat s with
    | none => exact pyIn_false_of_splitFirst_none hq
    | some q => rw [hq] at hn; simp at hn

theorem pyIn_cons_not_prefix {pat : List Char} {c : Char} {s : List Char}
    (hc : pyIn pat (c :: s) = false) : pat.isPrefixOf (c :: s) = false := by
  have hn := splitFirst_none_of_pyIn_false hc
  unfold splitFirst at hn
  by_cases hp : pat.isPrefixOf (c :: s) = true
  · rw [if_pos hp] at hn; simp at hn
  · exact Bool.not_eq_true _ ▸ (by simpa using hp)

/-! ### Occurrences of the `---` delimiter across concatenations -/

theorem dash3_prefix_shift (a : Char) (x r : List Char) :
    (chars "---").isPrefixOf (a :: (x ++ (chars "---" ++ r))) =
      (chars "---").isPrefixOf (a :: (x ++ chars "--")) := by
  rcases x with _ | ⟨b, _ | ⟨c, t⟩⟩ <;>
    simp [chars, List.isPrefixOf]

theorem pyIn_dash3_append {x y : List Char}
    (hx : pyIn (chars "---") x = false) (hy : pyIn (chars "---") y = false)
    (hj : x.getLast? ≠ some '-' ∨ y.head? ≠ some '-') :
    pyIn (chars "---") (x ++ y) = false := by
  induction x with
  | nil => simpa using hy
  | cons c x' ih =>
    have hx' : pyIn (chars "---") x' = false := pyIn_cons_false hx
    rw [List.cons_append]
    apply pyIn_false_of_splitFirst_none
    rw [splitFirst_cons]
    have hpre : (chars "---").isPrefixOf (c :: (x' ++ y)) = false := by
      by_contra hcon
      have hpt : (chars "---").isPrefixOf (c :: (x' ++ y)) = true := by
        simpa using hcon
      rcases x' with _ | ⟨d, _ | ⟨e, t⟩⟩
      · -- x = [c]: the occurrence needs c = '-' and y to start with "--"
        simp only [List.nil_append, chars, List.isPrefixOf] at hpt
        rcases y with _ | ⟨y0, _ | ⟨y1, ys⟩⟩ <;> simp at hpt
        obtain ⟨hc1, hy0, _⟩ := hpt
        rcases hj with hjl | hjr
        · exact hjl (by simp [hc1.symm])
        · exact hjr (by simp [hy0.symm])
      · -- x = [c, d]: needs c = d = '-' and y to start with '-'
        simp only [List.cons_append, List.nil_append, chars, List.isPrefixOf] at hpt
        rcases y with _ | ⟨y0, ys⟩ <;> simp at hpt
        obtain ⟨_, hd1, hy0⟩ := hpt
        rcases hj with hjl | hjr
        · exact hjl (by simp [hd1.symm])
        · exact hjr (by simp [hy0.symm])
      · -- x has three or more characters: the occurrence is inside x
        simp [chars, List.isPrefixOf] at hpt
        obtain ⟨hc1, hd1, he1⟩ := hpt
        subst hc1
        subst hd1
        subst he1
        have hnp := pyIn_cons_not_prefix hx
        simp [chars, List.isPrefixOf] at hnp
    rw [hpre]
    simp only [Bool.false_eq_true, if_false]
    rcases x' with _ | ⟨d, x''⟩
    · rw [List.nil_append, splitFirst_none_of_pyIn_false hy]
      rfl
    · have hj' : (d :: x'').getLast? ≠ some '-' ∨ y.head? ≠ some '-' := by
        rcases hj with hjl | hjr
        · exact Or.inl (by rwa [List.getLast?_cons_cons] at hjl)
        · exact Or.inr hjr
      rw [splitFirst_none_of_pyIn_false (ih hx' hj')]
      rfl

theorem splitFirst_dash3_mid {m : List Char} (r : List Char)
    (hm : pyIn (chars "---") (m ++ chars "--") = false) :
    splitFirst (chars "---") (m ++ (chars "---" ++ r)) = some (m, r) := by
  induction m with
  | nil =>
    rw [List.nil_append]
    exact splitFirst_prefixOf (chars "---") r (by simp [chars])
  | cons c m' ih =>
    have hm2 : pyIn (chars "---") (c :: (m' ++ chars "--")) = false := hm
    have hm' : pyIn (chars "---") (m' ++ chars "--") = false := pyIn_cons_false hm2
    rw [List.cons_append, splitFirst_cons, dash3_prefix_shift, pyIn_cons_not_prefix hm2]
    simp only [Bool.false_eq_true, if_false]
    rw [ih hm']
    rfl

theorem pySplitMax_of_none {pat s : List Char} (hs : splitFirst pat s = none) :
    ∀ n, pySplitMax pat n s = [s] := by
  intro n
  cases n with
  | zero => rfl
  | succ k =>
    unfold pySplitMax
    rw [hs]

theorem pySplitMax_succ_some {pat s a b : List Char}
    (hs : splitFirst pat s = some (a, b)) (n : Nat) :
    pySplitMax pat (n + 1) s = a :: pySplitMax pat n b := by
  conv_lhs => unfold pySplitMax
  rw [hs]

theorem extract_frontmatter_block {m : List Char} (r : List Char)
    (hm : pyIn (chars "---") (m ++ chars "--") = false) :
    extract_frontmatter (chars "---" ++ (m ++ (chars "---" ++ r))) =
      ((pySplitAll ['\n'] (pyStripWs m)).foldl fmParseLine [], pyStripWs r) := by
  have h1 : splitFirst (chars "---") (chars "---" ++ (m ++ (chars "---" ++ r))) =
      some ([], m ++ (chars "---" ++ r)) :=
    splitFirst_prefixOf _ _ (by simp [chars])
  have h2 : splitFirst (chars "---") (m ++ (chars "---" ++ r)) = some (m, r) :=
    splitFirst_dash3_mid r hm
  have hparts : pySplitMax (chars "---") 2 (chars "---" ++ (m ++ (chars "---" ++ r))) =
      [[], m, r] := by
    rw [pySplitMax_succ_some h1 1, pySplitMax_succ_some h2 0]
    rfl
  unfold extract_frontmatter
  rw [if_pos (isPrefixOf_append_self _ _), hparts]

/-! ### Shape of a stripped frontmatter line -/

theorem dropWhile_idem (p : Char → Bool) (l : List Char) :
    List.dropWhile p (List.dropWhile p l) = List.dropWhile p l := by
  induction l with
  | nil => rfl
  | cons a t ih =>
    rw [List.dropWhile_cons]
    by_cases ha : p a
    · simpa [ha] using ih
    · have ha2 : p a = false := by simpa using ha
      rw [if_neg (by simp [ha2]), dropWhile_cons_neg ha2]

theorem pyStrip_dropWhile (p : Char → Bool) (l : List Char) :
    pyStrip p (List.dropWhile p l) = pyStrip p l := by
  unfold pyStrip
  rw [dropWhile_idem]

theorem dropWhile_ne_nil_of_mem {p : Char → Bool} {l : List Char} {c : Char}
    (hc : c ∈ l) (hp : p c = false) : List.dropWhile p l ≠ [] := by
  induction l with
  | nil => simp at hc
  | cons a t ih =>
    rw [List.dropWhile_cons]
    by_cases ha : p a
    · rw [if_pos (by simpa using ha)]
      rcases List.mem_cons.mp hc with hca | hct
      · subst hca
        rw [ha] at hp
        simp at hp
      · exact ih hct
    · rw [if_neg (by simpa using ha)]
      simp

theorem dropWhile_append_head {p : Char → Bool} (k : List Char) {c : Char} (v : List Char)
    (hc : p c = false) :
    List.dropWhile p (k ++ c :: v) = List.dropWhile p k ++ c :: v := by
  rw [List.dropWhile_append]
  by_cases hk : (List.dropWhile p k).isEmpty = true
  · rw [if_pos hk, dropWhile_cons_neg hc]
    rw [List.isEmpty_iff] at hk
    rw [hk, List.nil_append]
  · rw [if_neg hk]

theorem dropTrail_fmline (k v : List Char)
    (hvlast : isPySpace (v.getLastD 'x') = false) :
    dropTrail isPySpace ((k ++ (':' :: v)) ++ ['\n']) = k ++ (':' :: v) := by
  rw [dropTrail_concat, if_pos (by decide)]
  rcases List.eq_nil_or_concat v with hv | ⟨v', a, hva⟩
  · subst hv
    have hshape : k ++ (':' :: ([] : List Char)) = k ++ [':'] := rfl
    rw [hshape, dropTrail_concat, if_neg (by decide)]
  · subst hva
    simp only [List.concat_eq_append] at hvlast ⊢
    have hlast : isPySpace a = false := by
      rwa [List.getLastD_eq_getLast?, List.getLast?_concat, Option.getD_some] at hvlast
    have hshape : k ++ (':' :: (v' ++ [a])) = (k ++ (':' :: v')) ++ [a] := by
      simp
    rw [hshape, dropTrail_concat, if_neg (by simp [hlast])]

theorem pyStripWs_fmline (k v : List Char)
    (hvlast : isPySpace (v.getLastD 'x') = false) :
    pyStripWs ('\n' :: ((k ++ (':' :: v)) ++ ['\n'])) =
      List.dropWhile isPySpace k ++ (':' :: v) := by
  unfold pyStripWs pyStrip
  rw [List.dropWhile_cons, if_pos (by decide)]
  have h1 : List.dropWhile isPySpace ((k ++ (':' :: v)) ++ ['\n']) =
      List.dropWhile isPySpace k ++ ((':' :: v) ++ ['\n']) := by
    have hshape : (k ++ (':' :: v)) ++ ['\n'] = k ++ (':' :: (v ++ ['\n'])) := by
      simp
    rw [hshape, dropWhile_append_head k (v ++ ['\n']) (by decide)]
    simp
  rw [h1]
  have h2 : List.dropWhile isPySpace k ++ ((':' :: v) ++ ['\n']) =
      ((List.dropWhile isPySpace k ++ (':' :: v)) ++ ['\n']) := by
    simp
  rw [h2, dropTrail_fmline _ _ hvlast]

/-! ### Claim C4: frontmatter value quote handling -/

theorem pySplitAll_single {pat s : List Char} (hs : splitFirst pat s = none) :
    pySplitAll pat s = [s] :=
  pySplitMax_of_none hs s.length

theorem dictInsert_nil (k v : List Char) : dictInsert [] k v = [(k, v)] := rfl

theorem pyStripWs_dropWhile (l : List Char) :
    pyStripWs (List.dropWhile isPySpace l) = pyStripWs l :=
  pyStrip_dropWhile isPySpace l

/-- Complete analysis of a one-line frontmatter block: the parsed dict is the
trimmed key mapped to the trimmed, quote-stripped value, and the body is the
stripped remainder.  The hypotheses keep the block well formed: no newline or
`---` inside key or value, no `:` in the key, and no trailing whitespace on
the value (which the block-level strip would otherwise eat). -/
theorem extract_frontmatter_single_line (k v r : List Char)
    (hknl : '\n' ∉ k) (hkcolon : ':' ∉ k) (hvnl : '\n' ∉ v)
    (hk3 : pyIn (chars "---") k = false) (hv3 : pyIn (chars "---") v = false)
    (hvlast : isPySpace (v.getLastD 'x') = false) :
    extract_frontmatter
        (chars "---" ++ (('\n' :: ((k ++ (':' :: v)) ++ ['\n'])) ++ (chars "---" ++ r))) =
      ([(pyStripWs k, pyStripQuotes (pyStripWs v))], pyStripWs r) := by
  have hny : pyIn (chars "---") ['\n'] = false := by decide
  have hcl : pyIn (chars "---") [':'] = false := by decide
  have hnd : pyIn (chars "---") ('\n' :: chars "--") = false := by decide
  have hvx : pyIn (chars "---") (v ++ ('\n' :: chars "--")) = false :=
    pyIn_dash3_append hv3 hnd (Or.inr (by simp))
  have hcolonx : pyIn (chars "---") ([':'] ++ (v ++ ('\n' :: chars "--"))) = false :=
    pyIn_dash3_append hcl hvx (Or.inl (by simp))
  have hkx : pyIn (chars "---") (k ++ (':' :: (v ++ ('\n' :: chars "--")))) = false :=
    pyIn_dash3_append hk3 hcolonx (Or.inr (by simp))
  have hmx : pyIn (chars "---") (['\n'] ++ (k ++ (':' :: (v ++ ('\n' :: chars "--"))))) = false :=
    pyIn_dash3_append hny hkx (Or.inl (by simp))
  have hshape : ('\n' :: ((k ++ (':' :: v)) ++ ['\n'])) ++ chars "--" =
      ['\n'] ++ (k ++ (':' :: (v ++ ('\n' :: chars "--")))) := by
    simp
  have hm : pyIn (chars "---") (('\n' :: ((k ++ (':' :: v)) ++ ['\n'])) ++ chars "--") = false := by
    rw [hshape]
    exact hmx
  rw [extract_frontmatter_block r hm]
  rw [pyStripWs_fmline k v hvlast]
  set dwk := List.dropWhile isPySpace k with hdwk
  have hline_nonl : splitFirst ['\n'] (dwk ++ (':' :: v)) = none := by
    apply splitFirst_single_none
    intro hmem
    rcases List.mem_append.mp hmem with hmk | hmv
    · exact hknl ((List.dropWhile_sublist isPySpace).mem hmk)
    · rcases List.mem_cons.mp hmv with hcv | hvv
      · simp at hcv
      · exact hvnl hvv
  rw [pySplitAll_single hline_nonl]
  have hcolon_dwk : ':' ∉ dwk := fun hmem =>
    hkcolon ((List.dropWhile_sublist isPySpace).mem hmem)
  have hparse : fmParseLine [] (dwk ++ (':' :: v)) =
      [(pyStripWs dwk, pyStripQuotes (pyStripWs v))] := by
    unfold fmParseLine
    rw [splitFirst_single_append v hcolon_dwk]
    rfl
  rw [List.foldl_cons, List.foldl_nil, hparse, hdwk, pyStripWs_dropWhile]

/-- C4, corrected: for a well-formed single-`key: value` frontmatter block,
the stored value is the trimmed raw value with every leading and trailing
double quote removed and then every leading and trailing single quote removed
(`pyStripQuotes`), not just one matching enclosing pair; the stored key is the
trimmed key. -/
theorem frontmatter_value_strips_all_end_quotes (k v r : List Char)
    (hknl : '\n' ∉ k) (hkcolon : ':' ∉ k) (hvnl : '\n' ∉ v)
    (hk3 : pyIn (chars "---") k = false) (hv3 : pyIn (chars "---") v = false)
    (hvlast : isPySpace (v.getLastD 'x') = false) :
    extract_frontmatter
        (chars "---" ++ (('\n' :: ((k ++ (':' :: v)) ++ ['\n'])) ++ (chars "---" ++ r))) =
      ([(pyStripWs k, pyStripQuotes (pyStripWs v))], pyStripWs r) :=
  extract_frontmatter_single_line k v r hknl hkcolon hvnl hk3 hv3 hvlast

/-- C4 counterexample: the claim says exactly one matching pair of enclosing
quotes is removed and additional layers are preserved, so the raw value
`""v""` would parse to `"v"`; the code strips every end quote and parses it to
`v` instead. -/
theorem frontmatter_single_quote_layer_counterexample :
    (extract_frontmatter (chars "---\nk: \x22\x22v\x22\x22\n---\nbody")).1 =
        [(chars "k", chars "v")] ∧
      (chars "v" : List Char) ≠ chars "\x22v\x22" := by
  constructor
  · decide
  · decide

/-- Witness for C4 at `k = "title"`, `v = " hi"`, `r = "body"`. -/
theorem frontmatter_value_strips_all_end_quotes_witness :
    extract_frontmatter (chars "---\ntitle: hi\n---\nbody") =
      ([(chars "title", chars "hi")], chars "body") := by
  have hh := frontmatter_value_strips_all_end_quotes (chars "title") (chars " hi")
    (chars "body") (by decide) (by decide) (by decide) (by decide) (by decide) (by decide)
  exact hh

/-! ### Claim C3: update_note_file and frontmatter re-serialization -/

theorem pyJoin_cons_ne (sep x : List Char) {xs : List (List Char)} (hxs : xs ≠ []) :
    pyJoin sep (x :: xs) = x ++ sep ++ pyJoin sep xs := by
  cases xs with
  | nil => exact absurd rfl hxs
  | cons y rest => rfl

theorem pyJoin_append_singleton (sep y : List Char) :
    ∀ xs : List (List Char), xs ≠ [] →
      pyJoin sep (xs ++ [y]) = pyJoin sep xs ++ sep ++ y := by
  intro xs
  induction xs with
  | nil => intro hc; exact absurd rfl hc
  | cons x rest ih =>
    intro _
    cases rest with
    | nil => simp [pyJoin]
    | cons x2 rest2 =>
      rw [List.cons_append, pyJoin_cons_ne sep x (by simp), ih (by simp),
        pyJoin_cons_ne sep x (by simp)]
      simp

theorem serialize_frontmatter_shape (fm : List (List Char × List Char)) (hfm : fm ≠ []) :
    serialize_frontmatter fm =
      chars "---\n" ++
        (pyJoin ['\n'] (fm.map (fun p => p.1 ++ chars ": " ++ p.2)) ++ chars "\n---\n") := by
  unfold serialize_frontmatter
  have hmap_ne : fm.map (fun p => p.1 ++ chars ": " ++ p.2) ≠ [] := by
    simpa using hfm
  rw [pyJoin_cons_ne ['\n'] (chars "---") (by simp [hmap_ne]),
    pyJoin_append_singleton ['\n'] (chars "---\n") _ hmap_ne]
  have e1 : (chars "---\n" : List Char) = chars "---" ++ ['\n'] := by decide
  have e2 : (chars "\n---\n" : List Char) = '\n' :: chars "---\n" := by decide
  rw [e1, e2]
  simp
  decide

/-- C3, corrected: when the target file exists, `update_note_file` rewrites it
as the frontmatter RE-SERIALIZED FROM THE PARSED KEY/VALUE MAPPING — a `---`
line, one `key: value` line per parsed entry (keys and values already trimmed
and quote-stripped by the parser, colon-less lines dropped), a closing `---`
line and a blank line — followed by the new content; this is not the original
block byte-verbatim.  When no frontmatter was parsed the new content is the
whole file, and when the file does not exist the call fails with the NotFound
message and leaves the filesystem unchanged. -/
theorem update_note_reserializes_parsed_frontmatter
    (fs : List (List Char × List Char)) (filepath content : List Char) :
    (fs.find? (fun f => f.1 = filepath) = none →
      update_note_file fs filepath content =
        (chars "Note not found at " ++ filepath, fs)) ∧
    (∀ old, fs.find? (fun f => f.1 = filepath) = some old →
      update_note_file fs filepath content =
        ([], dictInsert fs filepath
          (if (extract_frontmatter old.2).1 = [] then content
           else chars "---\n" ++
             (pyJoin ['\n'] ((extract_frontmatter old.2).1.map
               (fun p => p.1 ++ chars ": " ++ p.2)) ++ (chars "\n---\n\n" ++ content))))) := by
  constructor
  · intro hnone
    unfold update_note_file
    rw [hnone]
  · intro old hsome
    unfold update_note_file
    rw [hsome]
    show ([], dictInsert fs filepath
      (if (extract_frontmatter old.2).1 = [] then content
       else serialize_frontmatter (extract_frontmatter old.2).1 ++ '\n' :: content)) = _
    by_cases hfm : (extract_frontmatter old.2).1 = []
    · rw [if_pos hfm, if_pos hfm]
    · rw [if_neg hfm, if_neg hfm, serialize_frontmatter_shape _ hfm]
      have e3 : (chars "\n---\n\n" : List Char) = chars "\n---\n" ++ ['\n'] := by decide
      rw [e3]
      simp

/-- C3 counterexample: the claim says the original frontmatter block is
re-serialized verbatim ahead of the new content.  Updating a file whose block
is `---\ntitle: "Hello"\n---` produces a file whose frontmatter line is
`title: Hello` — the original line `title: "Hello"` appears nowhere in the
rewritten file, so the block is not verbatim. -/
theorem update_note_verbatim_counterexample :
    (update_note_file [ (chars "/kb/a.md", chars "---\ntitle: \x22Hello\x22\n---\nold") ]
        (chars "/kb/a.md") (chars "new")).2 =
      [ (chars "/kb/a.md", chars "---\ntitle: Hello\n---\n\nnew") ] ∧
    pyIn (chars "title: \x22Hello\x22") (chars "---\ntitle: Hello\n---\n\nnew") = false := by
  constructor
  · decide
  · decide

/-- Witness for C3: the missing-file branch at an empty filesystem and the
existing-file branch at a one-file filesystem. -/
theorem update_note_reserializes_parsed_frontmatter_witness :
    update_note_file [] (chars "/kb/a.md") (chars "new") =
        (chars "Note not found at /kb/a.md", []) ∧
      update_note_file [ (chars "/kb/a.md", chars "---\nk: v\n---\nold") ]
          (chars "/kb/a.md") (chars "new") =
        ([], [ (chars "/kb/a.md", chars "---\nk: v\n---\n\nnew") ]) := by
  constructor
  · have hh := (update_note_reserializes_parsed_frontmatter [] (chars "/kb/a.md")
      (chars "new")).1 (by decide)
    exact hh
  · have hh := (update_note_reserializes_parsed_frontmatter
      [ (chars "/kb/a.md", chars "---\nk: v\n---\nold") ] (chars "/kb/a.md")
      (chars "new")).2 (chars "/kb/a.md", chars "---\nk: v\n---\nold") (by decide)
    exact hh

/-! ### Claim C7: network-failure classification of git errors -/

theorem pyIn_append_self (pat b : List Char) :
    ∀ a : List Char, a ≠ [] → pyIn pat (a ++ (pat ++ b)) = true := by
  intro a
  induction a with
  | nil => intro hc; exact absurd rfl hc
  | cons x a' ih =>
    intro _
    rw [List.cons_append]
    unfold pyIn
    rw [splitFirst_cons]
    by_cases hp : pat.isPrefixOf (x :: (a' ++ (pat ++ b))) = true
    · rw [if_pos hp]
      rfl
    · rw [if_neg hp]
      cases a' with
      | nil =>
        rw [List.nil_append]
        cases pat with
        | nil => simp [List.isPrefixOf] at hp
        | cons p pt =>
          rw [splitFirst_prefixOf (p :: pt) b (by simp)]
          rfl
      | cons y a'' =>
        have hrec := ih (by simp)
        unfold pyIn at hrec
        cases hq : splitFirst pat ((y :: a'') ++ (pat ++ b)) with
        | none => rw [hq] at hrec; simp at hrec
        | some q => rfl

/-- C7, corrected: both sync operations classify an error text as
network-class exactly when its lowercased text contains one of the five
indicator substrings `network`, `connection`, `timed out`,
`could not resolve`, `failed to connect`; network-class failures get the fixed
reassuring message (local data safe, will sync later) and all other errors get
a message that embeds the raw error text. -/
theorem git_sync_error_classification (e : List Char) :
    (is_network_error e = true ↔
      (pyIn (chars "network") (e.map pyLower) = true ∨
       pyIn (chars "connection") (e.map pyLower) = true ∨
       pyIn (chars "timed out") (e.map pyLower) = true ∨
       pyIn (chars "could not resolve") (e.map pyLower) = true ∨
       pyIn (chars "failed to connect") (e.map pyLower) = true)) ∧
    (is_network_error e = true →
      commit_push_sync_error_message e =
          chars "Saved locally but couldn\x27t sync to GitHub (no internet connection). Changes will sync automatically when internet is restored." ∧
        pull_fetch_error_message e =
          chars "Couldn\x27t sync with GitHub (no internet connection). Your local files are safe and will sync when internet is restored.") ∧
    (is_network_error e = false →
      pyIn e (commit_push_sync_error_message e) = true ∧
        pyIn e (pull_fetch_error_message e) = true) := by
  refine ⟨?_, ?_, ?_⟩
  · unfold is_network_error network_indicators
    simp only [List.any_cons, List.any_nil, Bool.or_eq_true, Bool.or_false]
  · intro hnet
    unfold commit_push_sync_error_message pull_fetch_error_message
    constructor
    · rw [if_pos hnet]
    · rw [if_pos hnet]
  · intro hnet
    unfold commit_push_sync_error_message pull_fetch_error_message
    rw [if_neg (by simp [hnet]), if_neg (by simp [hnet])]
    constructor
    · exact pyIn_append_self e (chars ". Changes will sync on next successful operation.")
        (chars "Saved locally but couldn\x27t sync to GitHub: ") (by decide)
    · exact pyIn_append_self e (chars ". Your local files are safe.")
        (chars "Couldn\x27t sync with GitHub: ") (by decide)

set_option maxRecDepth 8192 in
/-- C7 counterexample: an authentication-rejection text that merely mentions
the word `connection` — indicating neither connection refusal, DNS failure nor
timeout — is classified network-class and gets the reassuring fixed message
instead of having its raw text surfaced. -/
theorem git_sync_classification_counterexample :
    is_network_error (chars "authentication failed: the remote closed the connection") = true ∧
      indicates_refusal_dns_or_timeout
        (chars "authentication failed: the remote closed the connection") = false ∧
      pyIn (chars "authentication")
        (commit_push_sync_error_message
          (chars "authentication failed: the remote closed the connection")) = false := by
  refine ⟨by decide, by decide, by decide⟩

set_option maxRecDepth 8192 in
/-- Witness for C7: a DNS-failure text gets the reassuring message; a
merge-conflict text has its raw text embedded in the returned message. -/
theorem git_sync_error_classification_witness :
    commit_push_sync_error_message (chars "fatal: Could not resolve host: github.com") =
        chars "Saved locally but couldn\x27t sync to GitHub (no internet connection). Changes will sync automatically when internet is restored." ∧
      pyIn (chars "merge conflict in a.md")
        (pull_fetch_error_message (chars "merge conflict in a.md")) = true := by
  constructor
  · exact ((git_sync_error_classification
      (chars "fatal: Could not resolve host: github.com")).2.1 (by decide)).1
  · exact ((git_sync_error_classification
      (chars "merge conflict in a.md")).2.2 (by decide)).2

/-! ### Claim C10: limit semantics of search and recent -/

theorem insertRanked_length {α : Type} (le : α → α → Bool) (a : α) (l : List α) :
    (insertRanked le a l).length = l.length + 1 := by
  induction l with
  | nil => rfl
  | cons b t ih =>
    unfold insertRanked
    by_cases hab : le a b
    · rw [if_pos hab]
      rfl
    · rw [if_neg hab]
      simp [ih]

theorem sortRanked_length {α : Type} (le : α → α → Bool) (l : List α) :
    (sortRanked le l).length = l.length := by
  induction l with
  | nil => rfl
  | cons a t ih =>
    unfold sortRanked
    rw [insertRanked_length, ih]
    rfl

/-- C10, confirmed: with the SQLite semantics of `LIMIT ?` (negative: no upper
bound; zero: no rows), `search_notes_db` with a negative limit returns one
projected row per matching record with no truncation and `get_recent_notes`
returns every row; with limit `0` both return no rows; neither errors (both
are total). -/
theorem search_recent_limit_semantics (matchP : NoteRecord → Bool)
    (rankLe : NoteRecord → NoteRecord → Bool) (snippetF : NoteRecord → List Char)
    (db : List NoteRecord) (limit : Int) :
    (limit < 0 →
      (search_notes_db matchP rankLe snippetF db limit).length =
          (db.filter matchP).length ∧
        (get_recent_notes db limit).length = db.length) ∧
    (limit = 0 →
      search_notes_db matchP rankLe snippetF db limit = [] ∧
        get_recent_notes db limit = []) := by
  constructor
  · intro hneg
    unfold search_notes_db get_recent_notes sqlLimit
    rw [if_pos hneg, if_pos hneg]
    constructor
    · rw [List.length_map, sortRanked_length]
    · rw [List.length_map, sortRanked_length]
  · intro hzero
    subst hzero
    unfold search_notes_db get_recent_notes sqlLimit
    rw [if_neg (by omega), if_neg (by omega)]
    constructor
    · simp
    · simp

/-- Witness for C10 at a one-record store, a match-everything predicate, and
limits `-1` and `0`. -/
theorem search_recent_limit_semantics_witness :
    ((search_notes_db (fun _ => true) (fun _ _ => true) (fun _ => [])
          [sampleRecord] (-1)).length =
        (List.filter (fun _ => true) [sampleRecord]).length ∧
      (get_recent_notes [sampleRecord] (-1)).length = ([sampleRecord] : List NoteRecord).length) ∧
    (search_notes_db (fun _ => true) (fun _ _ => true) (fun _ => []) [sampleRecord] 0 = [] ∧
      get_recent_notes [sampleRecord] 0 = []) := by
  constructor
  · exact (search_recent_limit_semantics (fun _ => true) (fun _ _ => true) (fun _ => [])
      [sampleRecord] (-1)).1 (by decide)
  · exact (search_recent_limit_semantics (fun _ => true) (fun _ _ => true) (fun _ => [])
      [sampleRecord] 0).2 rfl

/-! ### Claim C6: create collision -/

/-- C6, confirmed: whenever the sanitized target path of a create already has
a file, `create_note_file` returns the AlreadyExists message — naming the
sanitized relative path and directing the caller to `update_note` — and the
filesystem is returned unchanged (the write is never reached). -/
theorem create_note_collision (resolveF : List Char → List Char)
    (fs : List (List Char × List Char)) (kb_dir title content tags : List Char)
    (sparts : List (List Char))
    (hok : sanitize_parts (pySplitAll ['/'] title) = Except.ok sparts)
    (hsec : (resolveF kb_dir).isPrefixOf (resolveF (compose_filepath kb_dir sparts)) = true)
    (hex : (fs.find? (fun f => f.1 = compose_filepath kb_dir sparts)).isSome = true) :
    create_note_file resolveF fs kb_dir title content tags =
      ((compose_filepath kb_dir sparts,
        chars "Note \x27" ++ pyJoin ['/'] sparts ++
          chars "\x27 already exists. Use update_note to modify it."), fs) := by
  unfold create_note_file
  rw [hok]
  show create_note_file_checked resolveF fs kb_dir title content tags sparts = _
  unfold create_note_file_checked
  rw [if_pos hsec, if_pos hex]

/-- Witness for C6: creating `My Note` when `/kb/my-note.md` already holds
`old` fails with the AlreadyExists message and leaves the file as it was. -/
theorem create_note_collision_witness :
    create_note_file id [ (chars "/kb/my-note.md", chars "old") ] (chars "/kb")
        (chars "My Note") (chars "hello") [] =
      ((compose_filepath (chars "/kb") [ chars "my-note" ],
        chars "Note \x27" ++ pyJoin ['/'] [ chars "my-note" ] ++
          chars "\x27 already exists. Use update_note to modify it."),
        [ (chars "/kb/my-note.md", chars "old") ]) := by
  exact create_note_collision id [ (chars "/kb/my-note.md", chars "old") ] (chars "/kb")
    (chars "My Note") (chars "hello") [] [ chars "my-note" ]
    rfl (by decide) (by decide)

/-! ### Splitting on a single separator: first-occurrence, fuel stability,
join/split round trip -/

theorem not_mem_of_splitFirst_single_none {c : Char} :
    ∀ {s : List Char}, splitFirst [c] s = none → c ∉ s := by
  intro s
  induction s with
  | nil => intro _ hmem; simp at hmem
  | cons d rest ih =>
    intro hnone hmem
    rw [splitFirst_cons] at hnone
    by_cases hp : ([c] : List Char).isPrefixOf (d :: rest) = true
    · rw [if_pos hp] at hnone
      simp at hnone
    · rw [if_neg hp] at hnone
      have hcd : ¬ c = d := by
        simp [List.isPrefixOf] at hp
        exact hp
      rcases List.mem_cons.mp hmem with hc1 | hc2
      · exact hcd hc1
      · cases hq : splitFirst [c] rest with
        | none => exact ih hq hc2
        | some q => rw [hq] at hnone; simp at hnone

theorem splitFirst_single_first_occurrence {c : Char} :
    ∀ {s a b : List Char}, splitFirst [c] s = some (a, b) → c ∉ a := by
  intro s
  induction s with
  | nil => intro a b hs; simp [splitFirst] at hs
  | cons d rest ih =>
    intro a b hs
    rw [splitFirst_cons] at hs
    by_cases hp : ([c] : List Char).isPrefixOf (d :: rest) = true
    · rw [if_pos hp] at hs
      injection hs with hs1
      injection hs1 with ha _
      subst ha
      simp
    · rw [if_neg hp] at hs
      have hcd : ¬ c = d := by
        simp [List.isPrefixOf] at hp
        exact hp
      cases hq : splitFirst [c] rest with
      | none => rw [hq] at hs; simp at hs
      | some q =>
        rw [hq] at hs
        injection hs with hs1
        injection hs1 with ha _
        subst ha
        intro hmem
        rcases List.mem_cons.mp hmem with hc1 | hc2
        · exact hcd hc1
        · exact ih hq hc2

theorem splitFirst_single_length {c : Char} {s a b : List Char}
    (hs : splitFirst [c] s = some (a, b)) : b.length < s.length := by
  have hd := splitFirst_decomp hs
  rw [hd]
  simp
  omega

theorem pySplitMax_congr {c : Char} :
    ∀ (fuel : Nat) (s : List Char) (n m : Nat), s.length ≤ fuel → s.length ≤ n →
      s.length ≤ m → pySplitMax [c] n s = pySplitMax [c] m s := by
  intro fuel
  induction fuel with
  | zero =>
    intro s n m hf _ _
    have hs : s = [] := List.length_eq_zero.mp (Nat.le_zero.mp hf)
    subst hs
    have hsn : splitFirst [c] ([] : List Char) = none := rfl
    rw [pySplitMax_of_none hsn n, pySplitMax_of_none hsn m]
  | succ f ih =>
    intro s n m hf hn hm
    cases hsf : splitFirst [c] s with
    | none => rw [pySplitMax_of_none hsf n, pySplitMax_of_none hsf m]
    | some q =>
      cases q with
      | mk a b =>
        have hblen : b.length < s.length := splitFirst_single_length hsf
        cases n with
        | zero =>
          have : s = [] := List.length_eq_zero.mp (Nat.le_zero.mp hn)
          subst this
          simp [splitFirst] at hsf
        | succ n' =>
          cases m with
          | zero =>
            have : s = [] := List.length_eq_zero.mp (Nat.le_zero.mp hm)
            subst this
            simp [splitFirst] at hsf
          | succ m' =>
            rw [pySplitMax_succ_some hsf n', pySplitMax_succ_some hsf m',
              ih b n' m' (by omega) (by omega) (by omega)]

theorem pySplitAll_fuel {c : Char} (s : List Char) (n : Nat) (hn : s.length ≤ n) :
    pySplitMax [c] n s = pySplitAll [c] s :=
  pySplitMax_congr s.length s n s.length (Nat.le_refl _) hn (Nat.le_refl _)

theorem pySplitAll_cons_sep {c : Char} {x : List Char} (rest : List Char) (hx : c ∉ x) :
    pySplitAll [c] (x ++ c :: rest) = x :: pySplitAll [c] rest := by
  have hsf : splitFirst [c] (x ++ c :: rest) = some (x, rest) :=
    splitFirst_single_append rest hx
  have hlen : (x ++ c :: rest).length = (x.length + rest.length) + 1 := by
    simp
    omega
  unfold pySplitAll
  rw [hlen, pySplitMax_succ_some hsf (x.length + rest.length),
    pySplitAll_fuel rest (x.length + rest.length) (by omega)]
  rfl

theorem pySplitAll_no_sep {c : Char} {s : List Char} (hs : c ∉ s) :
    pySplitAll [c] s = [s] :=
  pySplitMax_of_none (splitFirst_single_none hs) s.length

theorem pySplitAll_append_sep {c : Char} :
    ∀ (fuel : Nat) (a b : List Char), a.length ≤ fuel →
      pySplitAll [c] (a ++ c :: b) = pySplitAll [c] a ++ pySplitAll [c] b := by
  intro fuel
  induction fuel with
  | zero =>
    intro a b hf
    have ha : a = [] := List.length_eq_zero.mp (Nat.le_zero.mp hf)
    subst ha
    rw [List.nil_append]
    have hsf : splitFirst [c] (c :: b) = some ([], b) := splitFirst_prefixOf [c] b (by simp)
    show pySplitMax [c] (c :: b).length (c :: b) = _
    rw [List.length_cons, pySplitMax_succ_some hsf b.length,
      pySplitAll_fuel b b.length (Nat.le_refl _)]
    rfl
  | succ f ih =>
    intro a b hf
    cases hsf : splitFirst [c] a with
    | none =>
      have hnm := not_mem_of_splitFirst_single_none hsf
      rw [pySplitAll_cons_sep b hnm, pySplitAll_no_sep hnm]
      rfl
    | some q =>
      cases q with
      | mk a1 a2 =>
        have hdec2 : a = a1 ++ c :: a2 := by
          rw [splitFirst_decomp hsf]
          simp
        have hnm1 := splitFirst_single_first_occurrence hsf
        have hlen2 : a2.length < a.length := splitFirst_single_length hsf
        have hshape : a ++ c :: b = a1 ++ c :: (a2 ++ c :: b) := by
          rw [hdec2]
          simp
        rw [hshape, pySplitAll_cons_sep (a2 ++ c :: b) hnm1, ih a2 b (by omega),
          hdec2, pySplitAll_cons_sep a2 hnm1]
        rfl

theorem pySplitAll_pyJoin {c : Char} :
    ∀ parts : List (List Char), parts ≠ [] → (∀ s ∈ parts, c ∉ s) →
      pySplitAll [c] (pyJoin [c] parts) = parts := by
  intro parts
  induction parts with
  | nil => intro hc; exact absurd rfl hc
  | cons x rest ih =>
    intro _ hall
    cases rest with
    | nil =>
      show pySplitAll [c] x = [x]
      exact pySplitAll_no_sep (hall x (by simp))
    | cons y rest2 =>
      have hshape : pyJoin [c] (x :: y :: rest2) = x ++ c :: pyJoin [c] (y :: rest2) := by
        rw [pyJoin_cons_ne [c] x (by simp)]
        simp
      rw [hshape, pySplitAll_cons_sep (pyJoin [c] (y :: rest2)) (hall x (by simp)),
        ih (by simp) (fun s hm => hall s (List.mem_cons_of_mem x hm))]

/-! ### Claim C9: sanitized segments are safe -/

theorem collapseRunsGo_mem :
    ∀ (l : List Char) (b : Bool) (c : Char), c ∈ collapseRunsGo l b →
      c = '-' ∨ (c ∈ l ∧ (decide (c = '-') || isPySpace c) = false) := by
  intro l
  induction l with
  | nil => intro b c hc; simp [collapseRunsGo] at hc
  | cons d rest ih =>
    intro b c hc
    unfold collapseRunsGo at hc
    by_cases hd : (decide (d = '-') || isPySpace d) = true
    · rw [if_pos hd] at hc
      by_cases hb : b
      · subst hb
        rw [if_pos rfl] at hc
        rcases ih true c hc with hc1 | ⟨hc2, hc3⟩
        · exact Or.inl hc1
        · exact Or.inr ⟨List.mem_cons_of_mem d hc2, hc3⟩
      · have hb2 : b = false := by simpa using hb
        subst hb2
        rw [if_neg (by simp)] at hc
        rcases List.mem_cons.mp hc with hc1 | hc2
        · exact Or.inl hc1
        · rcases ih true c hc2 with hc3 | ⟨hc4, hc5⟩
          · exact Or.inl hc3
          · exact Or.inr ⟨List.mem_cons_of_mem d hc4, hc5⟩
    · rw [if_neg hd] at hc
      rcases List.mem_cons.mp hc with hc1 | hc2
      · subst hc1
        exact Or.inr ⟨List.mem_cons_self c rest, by simpa using hd⟩
      · rcases ih false c hc2 with hc3 | ⟨hc4, hc5⟩
        · exact Or.inl hc3
        · exact Or.inr ⟨List.mem_cons_of_mem d hc4, hc5⟩

theorem sanitize_part_charset (part : List Char) :
    ∀ c ∈ sanitize_part part, allowed_segment_char c = true := by
  intro c hc
  unfold sanitize_part at hc
  have hc2 := mem_of_mem_pyStrip hc
  unfold collapseRuns at hc2
  rcases collapseRunsGo_mem _ false c hc2 with hdash | ⟨hmem, hnotrun⟩
  · subst hdash
    decide
  · have hfilter := List.mem_filter.mp hmem
    obtain ⟨hmap, hkeep⟩ := hfilter
    obtain ⟨c0, _, hc0⟩ := List.mem_map.mp hmap
    simp only [Bool.or_eq_false_iff, decide_eq_false_iff_not] at hnotrun
    obtain ⟨hnd, hns⟩ := hnotrun
    rw [hns, Bool.or_false] at hkeep
    have hword : isWordChar c = true := by
      rcases Bool.or_eq_true_iff.mp hkeep with hw | hdash2
      · exact hw
      · exact absurd (by simpa using hdash2) hnd
    have hnotup := pyLower_not_upper c0
    rw [hc0] at hnotup
    unfold isWordChar at hword
    unfold allowed_segment_char
    simp only [Bool.or_eq_true, Bool.and_eq_true, decide_eq_true_eq] at hword ⊢
    rcases hword with ((h1 | h2) | h3) | h4
    · exact Or.inl (Or.inl (Or.inl h1))
    · exact absurd h2 hnotup
    · exact Or.inl (Or.inl (Or.inr h3))
    · exact Or.inl (Or.inr h4)

theorem ne_dots_of_charset {s : List Char}
    (hs : ∀ c ∈ s, allowed_segment_char c = true) :
    s ≠ chars "." ∧ s ≠ chars ".." := by
  constructor
  · intro heq
    have hdot : ('.' : Char) ∈ s := by rw [heq]; decide
    have := hs '.' hdot
    simp [allowed_segment_char] at this
  · intro heq
    have hdot : ('.' : Char) ∈ s := by rw [heq]; decide
    have := hs '.' hdot
    simp [allowed_segment_char] at this

theorem allowed_ne_slash {c : Char} (hc : allowed_segment_char c = true) : c ≠ '/' := by
  intro heq
  subst heq
  simp [allowed_segment_char] at hc

theorem sanitize_parts_ok_mem :
    ∀ (ps sparts : List (List Char)), sanitize_parts ps = Except.ok sparts →
      ∀ s ∈ sparts, s ≠ [] ∧ ∀ c ∈ s, allowed_segment_char c = true := by
  intro ps
  induction ps with
  | nil =>
    intro sparts hok s hmem
    unfold sanitize_parts at hok
    injection hok with hok1
    subst hok1
    simp at hmem
  | cons p rest ih =>
    intro sparts hok s hmem
    unfold sanitize_parts at hok
    split at hok
    · simp at hok
    · rename_i hgood
      cases hrec : sanitize_parts rest with
      | error q => rw [hrec] at hok; simp at hok
      | ok t =>
        rw [hrec] at hok
        injection hok with hok1
        subst hok1
        rcases List.mem_cons.mp hmem with hs1 | hs2
        · subst hs1
          refine ⟨?_, sanitize_part_charset p⟩
          intro hnil
          apply hgood
          simp [hnil]
        · exact ih t hrec s hs2

theorem sanitize_parts_ok_nil :
    ∀ ps : List (List Char), sanitize_parts ps = Except.ok [] → ps = [] := by
  intro ps hok
  cases ps with
  | nil => rfl
  | cons p rest =>
    unfold sanitize_parts at hok
    split at hok
    · simp at hok
    · cases hrec : sanitize_parts rest with
      | error q => rw [hrec] at hok; simp at hok
      | ok t => rw [hrec] at hok; simp at hok

theorem pySplitMax_ne_nil (pat : List Char) (n : Nat) (s : List Char) :
    pySplitMax pat n s ≠ [] := by
  cases n with
  | zero => simp [pySplitMax]
  | succ k =>
    unfold pySplitMax
    cases splitFirst pat s with
    | none => simp
    | some q => simp

theorem getLastD_mem_of_ne_nil :
    ∀ (l : List (List Char)), l ≠ [] → ∀ d : List Char, l.getLastD d ∈ l := by
  intro l
  induction l with
  | nil => intro hc; exact absurd rfl hc
  | cons x rest ih =>
    intro _ d
    rw [List.getLastD_cons]
    cases rest with
    | nil => simp [List.getLastD]
    | cons y rest2 => exact List.mem_cons_of_mem x (ih (by simp) x)

/-- C9, confirmed: every accepted sanitized segment consists only of lowercase
letters, digits, underscores and hyphens; no sanitization output can be `.` or
`..` (so the explicit `.`/`..` branch of the guard is unreachable — only the
emptiness check can fire); and the composed target path is lexically under the
root: it extends `root ++ "/"`, and its `/`-split is the root's split followed
exactly by the accepted segments (the last carrying `.md`), none of which is
empty, `.`, or `..`. -/
theorem sanitized_segments_lexically_safe :
    (∀ part : List Char,
      (∀ c ∈ sanitize_part part, allowed_segment_char c = true) ∧
        sanitize_part part ≠ chars "." ∧ sanitize_part part ≠ chars "..") ∧
    (∀ (kb_dir title : List Char) (sparts : List (List Char)),
      sanitize_parts (pySplitAll ['/'] title) = Except.ok sparts →
      (kb_dir ++ ['/']).isPrefixOf (compose_filepath kb_dir sparts) = true ∧
        pySplitAll ['/'] (compose_filepath kb_dir sparts) =
          pySplitAll ['/'] kb_dir ++
            (sparts.dropLast ++ [sparts.getLastD [] ++ chars ".md"]) ∧
        ∀ s ∈ sparts.dropLast ++ [sparts.getLastD [] ++ chars ".md"],
          s ≠ [] ∧ s ≠ chars "." ∧ s ≠ chars "..") := by
  constructor
  · intro part
    refine ⟨sanitize_part_charset part, ?_⟩
    exact ne_dots_of_charset (sanitize_part_charset part)
  · intro kb_dir title sparts hok
    have hmemfacts := sanitize_parts_ok_mem _ _ hok
    have hne : sparts ≠ [] := by
      intro hnil
      subst hnil
      exact pySplitMax_ne_nil ['/'] title.length title (sanitize_parts_ok_nil _ hok)
    have hlastmem : sparts.getLastD [] ∈ sparts := getLastD_mem_of_ne_nil sparts hne []
    obtain ⟨hlast_ne, hlast_chars⟩ := hmemfacts _ hlastmem
    have hlast_len : 1 ≤ (sparts.getLastD []).length := by
      cases hl : sparts.getLastD [] with
      | nil => exact absurd hl hlast_ne
      | cons a t => simp
    have hsegfacts : ∀ s ∈ sparts.dropLast ++ [sparts.getLastD [] ++ chars ".md"],
        s ≠ [] ∧ s ≠ chars "." ∧ s ≠ chars ".." ∧ '/' ∉ s := by
      intro s hmem
      rcases List.mem_append.mp hmem with hdrop | hlast
      · have hmem2 : s ∈ sparts := (List.dropLast_sublist sparts).mem hdrop
        obtain ⟨hs_ne, hs_chars⟩ := hmemfacts s hmem2
        obtain ⟨hd1, hd2⟩ := ne_dots_of_charset hs_chars
        exact ⟨hs_ne, hd1, hd2, fun hsl => allowed_ne_slash (hs_chars '/' hsl) rfl⟩
      · have hs_eq : s = sparts.getLastD [] ++ chars ".md" := by simpa using hlast
        subst hs_eq
        have hmd : (chars ".md").length = 3 := by decide
        have hdot1 : (chars ".").length = 1 := by decide
        have hdot2 : (chars "..").length = 2 := by decide
        refine ⟨?_, ?_, ?_, ?_⟩
        · intro heq
          have hlen := congrArg List.length heq
          rw [List.length_append, hmd] at hlen
          simp at hlen
        · intro heq
          have hlen := congrArg List.length heq
          rw [List.length_append, hmd, hdot1] at hlen
          omega
        · intro heq
          have hlen := congrArg List.length heq
          rw [List.length_append, hmd, hdot2] at hlen
          omega
        · intro hsl
          rcases List.mem_append.mp hsl with hin1 | hin2
          · exact allowed_ne_slash (hlast_chars '/' hin1) rfl
          · simp [chars] at hin2
    refine ⟨?_, ?_, fun s hmem => ⟨(hsegfacts s hmem).1, (hsegfacts s hmem).2.1,
      (hsegfacts s hmem).2.2.1⟩⟩
    · unfold compose_filepath
      apply List.isPrefixOf_iff_prefix.mpr
      have hshape : kb_dir ++ '/' ::
          pyJoin ['/'] (sparts.dropLast ++ [sparts.getLastD [] ++ chars ".md"]) =
          (kb_dir ++ ['/']) ++
            pyJoin ['/'] (sparts.dropLast ++ [sparts.getLastD [] ++ chars ".md"]) := by
        simp
      rw [hshape]
      exact List.prefix_append _ _
    · unfold compose_filepath
      rw [pySplitAll_append_sep kb_dir.length kb_dir _ (Nat.le_refl _),
        pySplitAll_pyJoin _ (by simp) (fun s hmem => (hsegfacts s hmem).2.2.2)]

/-- Witness for C9: the accepted split of title `Proj/Sub Idea` under root
`/kb` composes the path `/kb/proj/sub-idea.md`, whose segments after the root
are exactly `proj` and `sub-idea.md`. -/
theorem sanitized_segments_lexically_safe_witness :
    (chars "/kb" ++ ['/']).isPrefixOf
        (compose_filepath (chars "/kb") [ chars "proj", chars "sub-idea" ]) = true ∧
      pySplitAll ['/'] (compose_filepath (chars "/kb") [ chars "proj", chars "sub-idea" ]) =
        pySplitAll ['/'] (chars "/kb") ++
          [ chars "proj", chars "sub-idea" ].dropLast ++
            [ [ chars "proj", chars "sub-idea" ].getLastD [] ++ chars ".md" ] := by
  have hh := (sanitized_segments_lexically_safe).2 (chars "/kb") (chars "Proj/Sub Idea")
    [ chars "proj", chars "sub-idea" ] rfl
  refine ⟨hh.1, ?_⟩
  rw [hh.2.1]
  simp

/-! ### Claim C2: path traversal and the containment check -/

/-- C2, corrected: a traversal title such as `../../evil` fails with the
InvalidInput message and writes nothing, for every root, content, tags,
filesystem and resolver; and whenever the resolved target's string does not
extend the resolved root's string the call is rejected with the security error
before any write.  The containment check really performed is this
string-prefix comparison of resolved paths, which is weaker than the
descendant check the claim states. -/
theorem create_note_traversal_and_prefix_check :
    (∀ (kb_dir content tags : List Char) (fs : List (List Char × List Char))
      (resolveF : List Char → List Char),
      create_note_file resolveF fs kb_dir (chars "../../evil") content tags =
        (([], chars "Invalid path component in title: \x27..\x27"), fs)) ∧
    (∀ (kb_dir title content tags : List Char) (fs : List (List Char × List Char))
      (resolveF : List Char → List Char) (sparts : List (List Char)),
      sanitize_parts (pySplitAll ['/'] title) = Except.ok sparts →
      (resolveF kb_dir).isPrefixOf (resolveF (compose_filepath kb_dir sparts)) = false →
      create_note_file resolveF fs kb_dir title content tags =
        (([], chars "Invalid path: attempt to write outside knowledge base directory"),
          fs)) := by
  constructor
  · intro kb_dir content tags fs resolveF
    rfl
  · intro kb_dir title content tags fs resolveF sparts hok hsec
    unfold create_note_file
    rw [hok]
    show create_note_file_checked resolveF fs kb_dir title content tags sparts = _
    unfold create_note_file_checked
    rw [if_neg (by simp [hsec])]

/-- C2 counterexample: under a resolver that sends the symlink `/kb/evil.md`
into the sibling directory `/kbx`, the create succeeds and writes the file
even though the resolved path is not a descendant of the resolved root — the
`startswith` string comparison accepts `/kbx/...` as inside `/kb`. -/
theorem create_note_descendant_check_counterexample :
    (create_note_file resolveThroughSymlink [] (chars "/kb") (chars "evil")
          (chars "c") []).1.2 = [] ∧
      (create_note_file resolveThroughSymlink [] (chars "/kb") (chars "evil")
          (chars "c") []).2 =
        [ (chars "/kb/evil.md", chars "# evil\n\nc") ] ∧
      is_descendant_path (resolveThroughSymlink (chars "/kb/evil.md"))
        (resolveThroughSymlink (chars "/kb")) = false := by
  refine ⟨by decide, by decide, by decide⟩

/-- Witness for C2: a resolver that moves the root elsewhere trips the
security rejection with no write; `../../evil` trips the InvalidInput
rejection with no write. -/
theorem create_note_traversal_and_prefix_check_witness :
    create_note_file (fun p => if p = chars "/kb" then chars "/elsewhere" else p) []
        (chars "/kb") (chars "note") (chars "c") [] =
      (([], chars "Invalid path: attempt to write outside knowledge base directory"),
        []) ∧
    create_note_file id [] (chars "/kb") (chars "../../evil") (chars "c") [] =
      (([], chars "Invalid path component in title: \x27..\x27"), []) := by
  constructor
  · exact (create_note_traversal_and_prefix_check).2 (chars "/kb") (chars "note")
      (chars "c") [] [] (fun p => if p = chars "/kb" then chars "/elsewhere" else p)
      [ chars "note" ] rfl (by decide)
  · exact (create_note_traversal_and_prefix_check).1 (chars "/kb") (chars "c") [] [] id

/-! ### Claim C1: reconciliation makes store keys match the disk -/

theorem upsert_note_keys (db : List NoteRecord) (r : NoteRecord) :
    ∀ p, p ∈ (upsert_note db r).map NoteRecord.filepath ↔
      p ∈ db.map NoteRecord.filepath ∨ p = r.filepath := by
  intro p
  unfold upsert_note
  by_cases hany : db.any (fun q => decide (q.filepath = r.filepath)) = true
  · rw [if_pos (by simpa using hany)]
    have hkeys : (db.map (fun q => if q.filepath = r.filepath then r else q)).map
        NoteRecord.filepath = db.map NoteRecord.filepath := by
      rw [List.map_map]
      apply List.map_congr_left
      intro q _
      by_cases hq : q.filepath = r.filepath
      · simp [hq]
      · simp [hq]
    rw [hkeys]
    obtain ⟨q, hqmem, hqeq⟩ := List.any_eq_true.mp hany
    have hrmem : r.filepath ∈ db.map NoteRecord.filepath := by
      rw [← (by simpa using hqeq : q.filepath = r.filepath)]
      exact List.mem_map_of_mem NoteRecord.filepath hqmem
    constructor
    · exact Or.inl
    · intro hc
      rcases hc with hc1 | hc2
      · exact hc1
      · rw [hc2]; exact hrmem
  · rw [if_neg (by simpa using hany)]
    simp

theorem upsert_note_keys_nodup (db : List NoteRecord) (r : NoteRecord)
    (hnd : (db.map NoteRecord.filepath).Nodup) :
    ((upsert_note db r).map NoteRecord.filepath).Nodup := by
  unfold upsert_note
  by_cases hany : db.any (fun q => decide (q.filepath = r.filepath)) = true
  · rw [if_pos (by simpa using hany)]
    have hkeys : (db.map (fun q => if q.filepath = r.filepath then r else q)).map
        NoteRecord.filepath = db.map NoteRecord.filepath := by
      rw [List.map_map]
      apply List.map_congr_left
      intro q _
      by_cases hq : q.filepath = r.filepath
      · simp [hq]
      · simp [hq]
    rw [hkeys]
    exact hnd
  · rw [if_neg (by simpa using hany)]
    rw [List.map_append, List.nodup_append]
    refine ⟨hnd, by simp, ?_⟩
    intro p hp hq
    simp only [List.map_cons, List.map_nil, List.mem_singleton] at hq
    subst hq
    simp only [List.any_eq_true, not_exists, not_and] at hany
    obtain ⟨q, hqmem, hqeq⟩ := List.mem_map.mp hp
    have := hany q hqmem
    simp [hqeq] at this

theorem index_fold_keys (ctimeF mtimeF : List Char → List Char) (now : List Char) :
    ∀ (files : List (List Char × List Char)) (d : List NoteRecord) (p : List Char),
      p ∈ ((files.foldl
          (fun d f => upsert_note d (index_file f.1 f.2 (ctimeF f.1) (mtimeF f.1) now))
          d).map NoteRecord.filepath) ↔
        p ∈ d.map NoteRecord.filepath ∨ p ∈ files.map Prod.fst := by
  intro files
  induction files with
  | nil => intro d p; simp
  | cons f rest ih =>
    intro d p
    rw [List.foldl_cons, ih]
    rw [upsert_note_keys]
    have hfp : (index_file f.1 f.2 (ctimeF f.1) (mtimeF f.1) now).filepath = f.1 := rfl
    rw [hfp]
    simp only [List.map_cons, List.mem_cons]
    tauto

theorem index_fold_keys_nodup (ctimeF mtimeF : List Char → List Char) (now : List Char) :
    ∀ (files : List (List Char × List Char)) (d : List NoteRecord),
      (d.map NoteRecord.filepath).Nodup →
      ((files.foldl
          (fun d f => upsert_note d (index_file f.1 f.2 (ctimeF f.1) (mtimeF f.1) now))
          d).map NoteRecord.filepath).Nodup := by
  intro files
  induction files with
  | nil => intro d hd; exact hd
  | cons f rest ih =>
    intro d hd
    rw [List.foldl_cons]
    exact ih _ (upsert_note_keys_nodup d _ hd)

/-- C1, corrected: whenever the root directory exists at the start of the
pass, the store's filepath keys after `index_directory` are exactly the `.md`
files on disk (membership both ways, and uniqueness is preserved).  The
bootstrap branch does NOT restore the invariant: it returns with the store
untouched, so a stale record survives with no backing file — see the
counterexample. -/
theorem index_directory_reconciles (ctimeF mtimeF : List Char → List Char)
    (now : List Char) (fs : FileSystem) (db : List NoteRecord)
    (hroot : fs.rootExists = true) :
    (∀ p, p ∈ ((index_directory ctimeF mtimeF now fs db).2.1.map NoteRecord.filepath) ↔
        p ∈ fs.files.map Prod.fst) ∧
      ((db.map NoteRecord.filepath).Nodup →
        ((index_directory ctimeF mtimeF now fs db).2.1.map NoteRecord.filepath).Nodup) := by
  unfold index_directory
  rw [hroot]
  simp only [if_true]
  constructor
  · intro p
    rw [index_fold_keys]
    constructor
    · intro hc
      rcases hc with hc1 | hc2
      · obtain ⟨r, hrmem, hreq⟩ := List.mem_map.mp hc1
        have hfil := List.mem_filter.mp hrmem
        rw [← hreq]
        exact of_decide_eq_true hfil.2
      · exact hc2
    · exact Or.inr
  · intro hnd
    apply index_fold_keys_nodup
    exact ((List.filter_sublist db).map NoteRecord.filepath).nodup hnd

/-- C1 counterexample: with a stale record for `/kb/a.md` in the store and a
missing root directory, the bootstrap branch creates the root and returns with
the store untouched, so after the completed pass a record remains whose
backing file does not exist. -/
theorem index_directory_bootstrap_counterexample :
    chars "/kb/a.md" ∈
        ((index_directory (fun _ => chars "c") (fun _ => chars "m") (chars "i")
          ⟨false, []⟩ [ sampleRecord ]).2.1.map NoteRecord.filepath) ∧
      chars "/kb/a.md" ∉
        ((index_directory (fun _ => chars "c") (fun _ => chars "m") (chars "i")
          ⟨false, []⟩ [ sampleRecord ]).1.files.map Prod.fst) := by
  constructor
  · decide
  · decide

/-- Witness for C1: one file on disk, empty store, existing root. -/
theorem index_directory_reconciles_witness :
    (chars "/kb/a.md" ∈
        ((index_directory (fun _ => chars "c") (fun _ => chars "m") (chars "i")
          ⟨true, [ (chars "/kb/a.md", chars "body") ]⟩ []).2.1.map NoteRecord.filepath) ↔
      chars "/kb/a.md" ∈
        ([ (chars "/kb/a.md", chars "body") ].map Prod.fst)) ∧
      (((index_directory (fun _ => chars "c") (fun _ => chars "m") (chars "i")
          ⟨true, [ (chars "/kb/a.md", chars "body") ]⟩ []).2.1.map
            NoteRecord.filepath)).Nodup := by
  constructor
  · exact (index_directory_reconciles (fun _ => chars "c") (fun _ => chars "m") (chars "i")
      ⟨true, [ (chars "/kb/a.md", chars "body") ]⟩ [] rfl).1 (chars "/kb/a.md")
  · exact (index_directory_reconciles (fun _ => chars "c") (fun _ => chars "m") (chars "i")
      ⟨true, [ (chars "/kb/a.md", chars "body") ]⟩ [] rfl).2 (by simp)

/-! ### Claim C5: the tags field is the raw parsed string -/

/-- C5, corrected: the record's tags field is exactly the parsed frontmatter
string value of the `tags` key (trimmed and end-quote-stripped), used as-is:
the parser produces only strings, so the sequence-normalization branch of the
source is unreachable and a YAML-style sequence is NOT comma-joined — it stays
as its raw bracketed text (see the counterexample); with no `tags` key (here:
no frontmatter block at all) the field is the empty string. -/
theorem index_file_tags_raw_value :
    (∀ filepath v r ca ma ia : List Char,
      '\n' ∉ v → pyIn (chars "---") v = false → isPySpace (v.getLastD 'x') = false →
      (index_file filepath
          (chars "---" ++ (('\n' :: ((chars "tags" ++ (':' :: v)) ++ ['\n'])) ++
            (chars "---" ++ r))) ca ma ia).tags = pyStripQuotes (pyStripWs v)) ∧
    (∀ filepath content ca ma ia : List Char,
      (chars "---").isPrefixOf content = false →
      (index_file filepath content ca ma ia).tags = []) := by
  constructor
  · intro filepath v r ca ma ia hvnl hv3 hvlast
    show dictGet (extract_frontmatter
        (chars "---" ++ (('\n' :: ((chars "tags" ++ (':' :: v)) ++ ['\n'])) ++
          (chars "---" ++ r)))).1 (chars "tags") [] = pyStripQuotes (pyStripWs v)
    rw [extract_frontmatter_single_line (chars "tags") v r (by decide) (by decide) hvnl
      (by decide) hv3 hvlast]
    show dictGet [(pyStripWs (chars "tags"), pyStripQuotes (pyStripWs v))]
      (chars "tags") [] = pyStripQuotes (pyStripWs v)
    rfl
  · intro filepath content ca ma ia hpre
    show dictGet (extract_frontmatter content).1 (chars "tags") [] = []
    have hfm : extract_frontmatter content = ([], content) := by
      unfold extract_frontmatter
      rw [if_neg (by simp [hpre])]
    rw [hfm]
    rfl

/-- C5 counterexample: a YAML sequence `tags: [a, b]` indexes with the raw
bracketed text `[a, b]` as the tags field, not the comma-joined `a, b` the
claim requires. -/
theorem index_file_tags_sequence_counterexample :
    (index_file (chars "/kb/a.md") (chars "---\ntags: [a, b]\n---\nx")
          (chars "c") (chars "m") (chars "i")).tags = chars "[a, b]" ∧
      (chars "[a, b]" : List Char) ≠ chars "a, b" := by
  constructor
  · decide
  · decide

/-- Witness for C5: a scalar `tags: work` line indexes with tags `work`; a
file with no frontmatter indexes with empty tags. -/
theorem index_file_tags_raw_value_witness :
    (index_file (chars "/kb/a.md")
          (chars "---" ++ (('\n' :: ((chars "tags" ++ (':' :: chars " work")) ++ ['\n'])) ++
            (chars "---" ++ chars "\nbody"))) (chars "c") (chars "m") (chars "i")).tags =
        pyStripQuotes (pyStripWs (chars " work")) ∧
      (index_file (chars "/kb/a.md") (chars "# t") (chars "c") (chars "m")
          (chars "i")).tags = [] := by
  constructor
  · exact index_file_tags_raw_value.1 (chars "/kb/a.md") (chars " work") (chars "\nbody")
      (chars "c") (chars "m") (chars "i") (by decide) (by decide) (by decide)
  · exact index_file_tags_raw_value.2 (chars "/kb/a.md") (chars "# t") (chars "c")
      (chars "m") (chars "i") (by decide)

/-! ### Claim C8: create-then-index title round trip -/

theorem create_note_file_success (resolveF : List Char → List Char)
    (fs : List (List Char × List Char)) (kb_dir title content tags : List Char)
    (sparts : List (List Char))
    (hok : sanitize_parts (pySplitAll ['/'] title) = Except.ok sparts)
    (hsec : (resolveF kb_dir).isPrefixOf (resolveF (compose_filepath kb_dir sparts)) = true)
    (hex : (fs.find? (fun f => f.1 = compose_filepath kb_dir sparts)).isSome = false) :
    create_note_file resolveF fs kb_dir title content tags =
      ((compose_filepath kb_dir sparts, []),
        dictInsert fs (compose_filepath kb_dir sparts)
          ((if tags = [] then [] else
            chars "---\ntitle: " ++ title ++ chars "\ntags: " ++ tags ++
              chars "\n---\n\n") ++
            chars "# " ++ title ++ chars "\n\n" ++ content)) := by
  unfold create_note_file
  rw [hok]
  show create_note_file_checked resolveF fs kb_dir title content tags sparts = _
  unfold create_note_file_checked
  rw [if_pos hsec, if_neg (by simp [hex])]

theorem create_note_file_of_no_error (resolveF : List Char → List Char)
    (fs : List (List Char × List Char)) (kb_dir title content tags : List Char)
    (hsucc : (create_note_file resolveF fs kb_dir title content tags).1.2 = []) :
    ∃ sparts, sanitize_parts (pySplitAll ['/'] title) = Except.ok sparts ∧
      (resolveF kb_dir).isPrefixOf (resolveF (compose_filepath kb_dir sparts)) = true ∧
      (fs.find? (fun f => f.1 = compose_filepath kb_dir sparts)).isSome = false := by
  cases hok : sanitize_parts (pySplitAll ['/'] title) with
  | error part =>
    exfalso
    unfold create_note_file at hsucc
    rw [hok] at hsucc
    simp [chars] at hsucc
  | ok sparts =>
    refine ⟨sparts, rfl, ?_⟩
    unfold create_note_file at hsucc
    rw [hok] at hsucc
    replace hsucc :
        (create_note_file_checked resolveF fs kb_dir title content tags sparts).1.2 = [] :=
      hsucc
    unfold create_note_file_checked at hsucc
    by_cases hsec :
        (resolveF kb_dir).isPrefixOf (resolveF (compose_filepath kb_dir sparts)) = true
    · rw [if_pos hsec] at hsucc
      by_cases hex : (fs.find? (fun f => f.1 = compose_filepath kb_dir sparts)).isSome = true
      · rw [if_pos hex] at hsucc
        simp [chars] at hsucc
      · refine ⟨hsec, ?_⟩
        rw [Bool.not_eq_true] at hex
        exact hex
    · rw [if_neg hsec] at hsucc
      simp [chars] at hsucc

theorem find?_append_of_none {α : Type} (p : α → Bool) (l1 l2 : List α)
    (hn : l1.find? p = none) : (l1 ++ l2).find? p = l2.find? p := by
  induction l1 with
  | nil => rfl
  | cons a t ih =>
    rw [List.find?_cons] at hn
    rw [List.cons_append, List.find?_cons]
    cases hpa : p a with
    | true => rw [hpa] at hn; simp at hn
    | false =>
      rw [hpa] at hn
      simp only [Bool.false_eq_true]
      exact ih hn

theorem takeWhile_ne_append {c : Char} {a : List Char} (ha : c ∉ a) (x : List Char) :
    (a ++ c :: x).takeWhile (fun d => d ≠ c) = a := by
  induction a with
  | nil =>
    rw [List.nil_append, takeWhile_cons_neg]
    simp
  | cons d a' ih =>
    have hdc : (d = c) = False := by
      simp only [eq_iff_iff, iff_false]
      intro hh
      exact ha (hh ▸ List.mem_cons_self d a')
    rw [List.cons_append, List.takeWhile_cons, if_pos (by simp [hdc]),
      ih (fun hm => ha (List.mem_cons_of_mem d hm))]

theorem headD_of_cons (t0 : Char) (T : List Char) (d : Char) :
    (t0 :: T).headD d = t0 := rfl

theorem getLast?_eq_getLastD {T : List Char} {c : Char} (hc : T.getLast? = some c)
    (d : Char) : T.getLastD d = c := by
  rw [List.getLastD_eq_getLast?, hc]
  rfl

theorem pyStrip_eq_self_of_ends (p : Char → Bool) {T : List Char} (hne : T ≠ [])
    (hh : p (T.headD 'x') = false) (hl : p (T.getLastD 'x') = false) :
    pyStrip p T = T := by
  apply pyStrip_eq_self
  · intro c hc
    cases T with
    | nil => simp at hc
    | cons t0 rest =>
      injection hc with hc1
      rw [← hc1]
      exact hh
  · intro c hc
    rw [← getLast?_eq_getLastD hc 'x']
    exact hl

theorem dropTrail_cons_ne (p : Char → Bool) (c : Char) (l : List Char)
    (hc : p c = false) : dropTrail p (l ++ [c]) = l ++ [c] := by
  rw [dropTrail_concat, if_neg (by simp [hc])]

/-- Stripping the two-line `title`/`tags` frontmatter text: the leading
newline goes, the trailing newline goes, and the trailing strip continues into
the tags line exactly when the raw tags value is all whitespace. -/
theorem pyStripWs_title_tags_block (T G : List Char) :
    pyStripWs ('\n' :: (chars "title: " ++
        (T ++ ('\n' :: (chars "tags: " ++ (G ++ ['\n'])))))) =
      chars "title: " ++ (T ++ ('\n' ::
        (if dropTrail isPySpace G = [] then chars "tags:"
         else chars "tags: " ++ dropTrail isPySpace G))) := by
  unfold pyStripWs pyStrip
  have ht : (chars "title: " : List Char) = 't' :: chars "itle: " := by decide
  rw [List.dropWhile_cons, if_pos (by decide), ht]
  have hshape1 : ('t' :: chars "itle: ") ++
      (T ++ ('\n' :: (chars "tags: " ++ (G ++ ['\n'])))) =
      't' :: (chars "itle: " ++ (T ++ ('\n' :: (chars "tags: " ++ (G ++ ['\n']))))) := rfl
  rw [hshape1, dropWhile_cons_neg (by decide)]
  have hshape2 : 't' :: (chars "itle: " ++
      (T ++ ('\n' :: (chars "tags: " ++ (G ++ ['\n']))))) =
      (('t' :: chars "itle: ") ++ (T ++ ('\n' :: chars "tags: ")) ++ G) ++ ['\n'] := by
    simp
  rw [hshape2, dropTrail_concat, if_pos (by decide), dropTrail_append]
  by_cases hG0 : dropTrail isPySpace G = []
  · rw [if_pos hG0, if_pos hG0]
    have hshape3 : ('t' :: chars "itle: ") ++ (T ++ ('\n' :: chars "tags: ")) =
        (('t' :: chars "itle: ") ++ (T ++ ['\n']) ++ chars "tags") ++ [':'] ++ [' '] := by
      have hsp : (chars "tags: " : List Char) = chars "tags" ++ ([':'] ++ [' ']) := by decide
      rw [hsp]
      simp
    rw [hshape3, dropTrail_concat, if_pos (by decide),
      dropTrail_cons_ne isPySpace ':' _ (by decide)]
    have hsp2 : (chars "tags:" : List Char) = chars "tags" ++ [':'] := by decide
    rw [hsp2]
    simp
  · rw [if_neg hG0, if_neg hG0]
    simp

/-- Title extraction from the two-line frontmatter block written by
`create_note_file` when tags are supplied: the parsed dict maps `title` to the
literal title. -/
theorem extract_frontmatter_title_tags (T G r : List Char)
    (hTne : T ≠ []) (hTnl : '\n' ∉ T)
    (hThead : isPySpace (T.headD 'x') = false)
    (hTlast : isPySpace (T.getLastD 'x') = false)
    (hq1 : T.headD 'x' ≠ '"') (hq2 : T.headD 'x' ≠ '\'')
    (hq3 : T.getLastD 'x' ≠ '"') (hq4 : T.getLastD 'x' ≠ '\'')
    (hT3 : pyIn (chars "---") T = false)
    (hGnl : '\n' ∉ G) (hG3 : pyIn (chars "---") G = false) :
    dictGet (extract_frontmatter (chars "---" ++
        (('\n' :: (chars "title: " ++
          (T ++ ('\n' :: (chars "tags: " ++ (G ++ ['\n'])))))) ++
          (chars "---" ++ r)))).1 (chars "title") [] = T := by
  have p1 : pyIn (chars "---") ('\n' :: chars "--") = false := by decide
  have p2 : pyIn (chars "---") (G ++ ('\n' :: chars "--")) = false :=
    pyIn_dash3_append hG3 p1 (Or.inr (by simp))
  have p3 : pyIn (chars "---") (chars "tags: " ++ (G ++ ('\n' :: chars "--"))) = false :=
    pyIn_dash3_append (by decide) p2 (Or.inl (by decide))
  have p4 : pyIn (chars "---")
      (['\n'] ++ (chars "tags: " ++ (G ++ ('\n' :: chars "--")))) = false :=
    pyIn_dash3_append (by decide) p3 (Or.inl (by decide))
  have p4b : pyIn (chars "---")
      ('\n' :: (chars "tags: " ++ (G ++ ('\n' :: chars "--")))) = false := p4
  have p5 : pyIn (chars "---")
      (T ++ ('\n' :: (chars "tags: " ++ (G ++ ('\n' :: chars "--"))))) = false :=
    pyIn_dash3_append hT3 p4b (Or.inr (by simp))
  have p6 : pyIn (chars "---")
      (chars "title: " ++ (T ++ ('\n' :: (chars "tags: " ++ (G ++ ('\n' :: chars "--")))))) =
      false :=
    pyIn_dash3_append (by decide) p5 (Or.inl (by decide))
  have p7 : pyIn (chars "---") (['\n'] ++ (chars "title: " ++
      (T ++ ('\n' :: (chars "tags: " ++ (G ++ ('\n' :: chars "--"))))))) = false :=
    pyIn_dash3_append (by decide) p6 (Or.inl (by decide))
  have hm3 : pyIn (chars "---")
      (('\n' :: (chars "title: " ++ (T ++ ('\n' :: (chars "tags: " ++ (G ++ ['\n'])))))) ++
        chars "--") = false := by
    have hsh : ('\n' :: (chars "title: " ++
        (T ++ ('\n' :: (chars "tags: " ++ (G ++ ['\n'])))))) ++ chars "--" =
        ['\n'] ++ (chars "title: " ++
          (T ++ ('\n' :: (chars "tags: " ++ (G ++ ('\n' :: chars "--")))))) := by
      simp
    rw [hsh]
    exact p7
  rw [extract_frontmatter_block r hm3]
  show dictGet ((pySplitAll ['\n'] (pyStripWs ('\n' :: (chars "title: " ++
      (T ++ ('\n' :: (chars "tags: " ++ (G ++ ['\n'])))))))).foldl fmParseLine [])
      (chars "title") [] = T
  rw [pyStripWs_title_tags_block T G]
  obtain ⟨t0, T', hT⟩ : ∃ t0 T', T = t0 :: T' := by
    cases T with
    | nil => exact absurd rfl hTne
    | cons a b => exact ⟨a, b, rfl⟩
  have hheadc : ∀ c, T.head? = some c → c ≠ '"' ∧ c ≠ '\'' ∧ isPySpace c = false := by
    intro c hc
    rw [hT] at hc
    injection hc with hc1
    rw [hT] at hq1 hq2 hThead
    rw [← hc1]
    exact ⟨hq1, hq2, hThead⟩
  have hlastc : ∀ c, T.getLast? = some c → c ≠ '"' ∧ c ≠ '\'' ∧ isPySpace c = false := by
    intro c hc
    rw [← getLast?_eq_getLastD hc 'x']
    exact ⟨hq3, hq4, hTlast⟩
  have ht0 : isPySpace t0 = false := by
    have hh := hThead
    rw [hT] at hh
    exact hh
  -- facts about the second line
  have hL2nl : '\n' ∉ (if dropTrail isPySpace G = [] then chars "tags:"
      else chars "tags: " ++ dropTrail isPySpace G) := by
    by_cases hG0 : dropTrail isPySpace G = []
    · rw [if_pos hG0]
      decide
    · rw [if_neg hG0]
      intro hmem
      rcases List.mem_append.mp hmem with h1 | h2
      · revert h1
        decide
      · exact hGnl (mem_of_mem_dropTrail h2)
  obtain ⟨V2, hV2⟩ : ∃ V2, splitFirst [':']
      (if dropTrail isPySpace G = [] then chars "tags:"
       else chars "tags: " ++ dropTrail isPySpace G) = some (chars "tags", V2) := by
    by_cases hG0 : dropTrail isPySpace G = []
    · refine ⟨[], ?_⟩
      rw [if_pos hG0]
      have hsp : (chars "tags:" : List Char) = chars "tags" ++ ':' :: [] := by decide
      rw [hsp]
      exact splitFirst_single_append [] (by decide)
    · refine ⟨' ' :: dropTrail isPySpace G, ?_⟩
      rw [if_neg hG0]
      have hsp : (chars "tags: " : List Char) ++ dropTrail isPySpace G =
          chars "tags" ++ ':' :: (' ' :: dropTrail isPySpace G) := by
        have hx : (chars "tags: " : List Char) = chars "tags" ++ (':' :: [' ']) := by decide
        rw [hx]
        simp
      rw [hsp]
      exact splitFirst_single_append _ (by decide)
  -- split into the two lines
  have hsh2 : chars "title: " ++ (T ++ ('\n' ::
      (if dropTrail isPySpace G = [] then chars "tags:"
       else chars "tags: " ++ dropTrail isPySpace G))) =
      (chars "title: " ++ T) ++ ('\n' ::
        (if dropTrail isPySpace G = [] then chars "tags:"
         else chars "tags: " ++ dropTrail isPySpace G)) := by
    simp
  have hnm1 : '\n' ∉ chars "title: " ++ T := by
    intro hmem
    rcases List.mem_append.mp hmem with h1 | h2
    · revert h1
      decide
    · exact hTnl h2
  rw [hsh2, pySplitAll_cons_sep _ hnm1, pySplitAll_no_sep hL2nl,
    List.foldl_cons, List.foldl_cons, List.foldl_nil]
  -- parse the first line: title
  have hstep1 : fmParseLine [] (chars "title: " ++ T) = [(chars "title", T)] := by
    unfold fmParseLine
    have hshA : (chars "title: " : List Char) ++ T = chars "title" ++ ':' :: (' ' :: T) := by
      have hx : (chars "title: " : List Char) = chars "title" ++ (':' :: [' ']) := by decide
      rw [hx]
      simp
    rw [hshA, splitFirst_single_append (' ' :: T) (by decide)]
    have hkey : pyStripWs (chars "title") = chars "title" := by decide
    have hws : pyStripWs (' ' :: T) = T := by
      unfold pyStripWs pyStrip
      rw [List.dropWhile_cons, if_pos (by decide)]
      rw [hT, dropWhile_cons_neg ht0, ← hT]
      exact dropTrail_eq_self_of_getLast (fun c hc => (hlastc c hc).2.2)
    have hstrip1 : pyStrip (fun c => c = '"') T = T :=
      pyStrip_eq_self (fun c hc => by simp [(hheadc c hc).1])
        (fun c hc => by simp [(hlastc c hc).1])
    have hquotes : pyStripQuotes T = T := by
      unfold pyStripQuotes
      rw [hstrip1]
      exact pyStrip_eq_self (fun c hc => by simp [(hheadc c hc).2.1])
        (fun c hc => by simp [(hlastc c hc).2.1])
    show dictInsert [] (pyStripWs (chars "title")) (pyStripQuotes (pyStripWs (' ' :: T))) =
      [(chars "title", T)]
    rw [hkey, hws, hquotes]
    rfl
  rw [hstep1]
  -- parse the second line: tags
  have hstep2 : fmParseLine [(chars "title", T)]
      (if dropTrail isPySpace G = [] then chars "tags:"
       else chars "tags: " ++ dropTrail isPySpace G) =
      [(chars "title", T), (chars "tags", pyStripQuotes (pyStripWs V2))] := by
    unfold fmParseLine
    rw [hV2]
    show dictInsert [(chars "title", T)] (pyStripWs (chars "tags"))
      (pyStripQuotes (pyStripWs V2)) = _
    have hkey2 : pyStripWs (chars "tags") = chars "tags" := by decide
    rw [hkey2]
    unfold dictInsert
    have hne2 : (chars "title" : List Char) ≠ chars "tags" := by decide
    rw [if_neg (by simp [hne2])]
    rfl
  rw [hstep2]
  rfl

theorem reSearchH1Go_succ_some (n : Nat) (s t : List Char)
    (h : h1TryAt s = some t) : reSearchH1Go (n + 1) s = some t := by
  conv_lhs => unfold reSearchH1Go
  rw [h]

/-- Title extraction from the file written without tags: the H1 heading at
the start of the body yields the literal title. -/
theorem index_title_h1 (filepath T C ca ma ia : List Char) (hTne : T ≠ [])
    (hTnl : '\n' ∉ T) (hThead : isPySpace (T.headD 'x') = false) :
    (index_file filepath ('#' :: (' ' :: (T ++ ('\n' :: ('\n' :: C))))) ca ma ia).title =
      T := by
  obtain ⟨t0, T', hT⟩ : ∃ t0 T', T = t0 :: T' := by
    cases T with
    | nil => exact absurd rfl hTne
    | cons a b => exact ⟨a, b, rfl⟩
  have ht0 : isPySpace t0 = false := by
    have hh := hThead
    rw [hT] at hh
    exact hh
  have hfm : extract_frontmatter ('#' :: (' ' :: (T ++ ('\n' :: ('\n' :: C))))) =
      ([], '#' :: (' ' :: (T ++ ('\n' :: ('\n' :: C))))) := by
    unfold extract_frontmatter
    rw [if_neg (by have hd : (chars "---" : List Char) = ['-', '-', '-'] := by decide
                   rw [hd]
                   simp [List.isPrefixOf])]
  have hw : List.takeWhile isPySpace (' ' :: (T ++ ('\n' :: ('\n' :: C)))) = [' '] := by
    rw [List.takeWhile_cons, if_pos (by decide), hT, List.cons_append,
      takeWhile_cons_neg ht0]
  have hd : List.dropWhile isPySpace (' ' :: (T ++ ('\n' :: ('\n' :: C)))) =
      t0 :: (T' ++ ('\n' :: ('\n' :: C))) := by
    rw [List.dropWhile_cons, if_pos (by decide), hT, List.cons_append,
      dropWhile_cons_neg ht0]
  have htw : (t0 :: (T' ++ ('\n' :: ('\n' :: C)))).takeWhile (fun d => d ≠ '\n') = T := by
    show ((t0 :: T') ++ ('\n' :: ('\n' :: C))).takeWhile (fun d => d ≠ '\n') = T
    rw [← hT]
    exact takeWhile_ne_append hTnl ('\n' :: C)
  have hh1 : h1TryAt ('#' :: (' ' :: (T ++ ('\n' :: ('\n' :: C))))) = some T := by
    show (if (List.takeWhile isPySpace (' ' :: (T ++ ('\n' :: ('\n' :: C))))).isEmpty = true
        then none
      else
        match List.dropWhile isPySpace (' ' :: (T ++ ('\n' :: ('\n' :: C)))) with
        | _ :: _ =>
          some ((List.dropWhile isPySpace
            (' ' :: (T ++ ('\n' :: ('\n' :: C))))).takeWhile (fun c => c ≠ '\n'))
        | [] =>
          match (List.takeWhile isPySpace
              (' ' :: (T ++ ('\n' :: ('\n' :: C))))).reverse.dropWhile
              (fun c => c = '\n') with
          | c :: _ => some [c]
          | [] => none) = some T
    rw [hw, hd, if_neg (by decide), htw]
  have hre : re_search_h1 ('#' :: (' ' :: (T ++ ('\n' :: ('\n' :: C))))) = some T :=
    reSearchH1Go_succ_some (('#' :: (' ' :: (T ++ ('\n' :: ('\n' :: C))))).length)
      ('#' :: (' ' :: (T ++ ('\n' :: ('\n' :: C))))) T hh1
  show (if dictGet (extract_frontmatter
      ('#' :: (' ' :: (T ++ ('\n' :: ('\n' :: C)))))).1 (chars "title") [] = [] then
      (match re_search_h1 (extract_frontmatter
        ('#' :: (' ' :: (T ++ ('\n' :: ('\n' :: C)))))).2 with
      | some t => t
      | none => pathStem filepath)
    else dictGet (extract_frontmatter
      ('#' :: (' ' :: (T ++ ('\n' :: ('\n' :: C)))))).1 (chars "title") []) = T
  rw [hfm]
  show (match re_search_h1 ('#' :: (' ' :: (T ++ ('\n' :: ('\n' :: C))))) with
    | some t => t
    | none => pathStem filepath) = T
  rw [hre]

theorem any_eq_find_isSome {α : Type} (p : α → Bool) (l : List α) :
    l.any p = (l.find? p).isSome := by
  induction l with
  | nil => rfl
  | cons a t ih =>
    rw [List.any_cons, List.find?_cons]
    cases hpa : p a with
    | true => simp
    | false => simp [ih]

theorem dictGet_dictInsert_new (fs : List (List Char × List Char)) (k v : List Char)
    (hn : fs.find? (fun p => p.1 = k) = none) :
    dictGet (dictInsert fs k v) k [] = v := by
  have hany : fs.any (fun p => p.1 = k) = false := by
    rw [any_eq_find_isSome, hn]
    rfl
  unfold dictInsert
  rw [if_neg (by simp [hany])]
  unfold dictGet
  rw [find?_append_of_none _ _ _ hn, List.find?_cons_of_pos _ (by simp)]

theorem index_file_title_of_fm (filepath content ca ma ia T : List Char)
    (hT : dictGet (extract_frontmatter content).1 (chars "title") [] = T)
    (hTne : T ≠ []) :
    (index_file filepath content ca ma ia).title = T := by
  show (if dictGet (extract_frontmatter content).1 (chars "title") [] = [] then
      (match re_search_h1 (extract_frontmatter content).2 with
      | some t => t
      | none => pathStem filepath)
    else dictGet (extract_frontmatter content).1 (chars "title") []) = T
  rw [if_neg (by rw [hT]; exact hTne), hT]

/-- Claim C8: create-then-index title round trip.  For every title accepted by
`create_note_file` that contains no newline, no leading or trailing whitespace,
does not begin or end with a quote character, and contains no `---` substring,
and for every content and tags where the tags contain no newline and no `---`
substring, indexing the file that `create_note_file` just wrote yields a record
whose title equals the literal title passed to create — recovered from the
frontmatter `title` key when tags were given and from the H1 heading when
they were not. -/
theorem create_then_index_title (resolveF : List Char → List Char)
    (fs : List (List Char × List Char)) (kb_dir T C G ca ma ia : List Char)
    (hTnl : '\n' ∉ T)
    (hThead : isPySpace (T.headD 'x') = false)
    (hTlast : isPySpace (T.getLastD 'x') = false)
    (hq1 : T.headD 'x' ≠ '"') (hq2 : T.headD 'x' ≠ '\'')
    (hq3 : T.getLastD 'x' ≠ '"') (hq4 : T.getLastD 'x' ≠ '\'')
    (hT3 : pyIn (chars "---") T = false)
    (hGnl : '\n' ∉ G) (hG3 : pyIn (chars "---") G = false)
    (hsucc : (create_note_file resolveF fs kb_dir T C G).1.2 = []) :
    (index_file (create_note_file resolveF fs kb_dir T C G).1.1
      (dictGet (create_note_file resolveF fs kb_dir T C G).2
        ((create_note_file resolveF fs kb_dir T C G).1.1) [])
      ca ma ia).title = T := by
  obtain ⟨sparts, hok, hsec, hex⟩ :=
    create_note_file_of_no_error resolveF fs kb_dir T C G hsucc
  have hTne : T ≠ [] := by
    intro hT0
    rw [hT0] at hok
    have hz : sanitize_parts (pySplitAll ['/'] ([] : List Char)) = Except.error [] := rfl
    rw [hz] at hok
    exact Except.noConfusion hok
  have hn : fs.find? (fun p => p.1 = compose_filepath kb_dir sparts) = none := by
    cases hfind : fs.find? (fun p => p.1 = compose_filepath kb_dir sparts) with
    | none => rfl
    | some w => rw [hfind] at hex; simp at hex
  rw [create_note_file_success resolveF fs kb_dir T C G sparts hok hsec hex]
  show (index_file (compose_filepath kb_dir sparts)
      (dictGet (dictInsert fs (compose_filepath kb_dir sparts)
        ((if G = [] then [] else
          chars "---\ntitle: " ++ T ++ chars "\ntags: " ++ G ++ chars "\n---\n\n") ++
          chars "# " ++ T ++ chars "\n\n" ++ C))
        (compose_filepath kb_dir sparts) [])
      ca ma ia).title = T
  rw [dictGet_dictInsert_new fs (compose_filepath kb_dir sparts) _ hn]
  by_cases hG : G = []
  · rw [if_pos hG]
    have hshape : ([] : List Char) ++ chars "# " ++ T ++ chars "\n\n" ++ C =
        '#' :: (' ' :: (T ++ ('\n' :: ('\n' :: C)))) := by
      have h1 : (chars "# " : List Char) = '#' :: [' '] := by decide
      have h2 : (chars "\n\n" : List Char) = '\n' :: ['\n'] := by decide
      rw [h1, h2]
      simp
    rw [hshape]
    exact index_title_h1 (compose_filepath kb_dir sparts) T C ca ma ia hTne hTnl hThead
  · rw [if_neg hG]
    have hfull : (chars "---\ntitle: " ++ T ++ chars "\ntags: " ++ G ++
          chars "\n---\n\n") ++ chars "# " ++ T ++ chars "\n\n" ++ C =
        chars "---" ++
          (('\n' :: (chars "title: " ++
            (T ++ ('\n' :: (chars "tags: " ++ (G ++ ['\n'])))))) ++
            (chars "---" ++
              ('\n' :: ('\n' :: (chars "# " ++ (T ++ (chars "\n\n" ++ C))))))) := by
      have h1 : (chars "---\ntitle: " : List Char) =
          chars "---" ++ ('\n' :: chars "title: ") := by decide
      have h2 : (chars "\ntags: " : List Char) = '\n' :: chars "tags: " := by decide
      have h3 : (chars "\n---\n\n" : List Char) =
          ['\n'] ++ (chars "---" ++ ('\n' :: ['\n'])) := by decide
      have h4 : (chars "# " : List Char) = '#' :: [' '] := by decide
      rw [h1, h2, h3, h4]
      simp
    rw [hfull]
    exact index_file_title_of_fm (compose_filepath kb_dir sparts) _ ca ma ia T
      (extract_frontmatter_title_tags T G
        ('\n' :: ('\n' :: (chars "# " ++ (T ++ (chars "\n\n" ++ C)))))
        hTne hTnl hThead hTlast hq1 hq2 hq3 hq4 hT3 hGnl hG3)
      hTne

/-- A title containing `---` breaks the round trip even though it has no
newline, no edge whitespace and no edge quotes: creating `a---b` with a tag
writes frontmatter whose `---` delimiters are confused by the title text, and
re-indexing recovers the title `a`. -/
theorem create_then_index_title_counterexample :
    (create_note_file id [] (chars "/kb") (chars "a---b") (chars "c") (chars "t")).1.2 = []
    ∧ (index_file
        (create_note_file id [] (chars "/kb") (chars "a---b") (chars "c")
          (chars "t")).1.1
        (dictGet (create_note_file id [] (chars "/kb") (chars "a---b") (chars "c")
            (chars "t")).2
          ((create_note_file id [] (chars "/kb") (chars "a---b") (chars "c")
            (chars "t")).1.1) [])
        (chars "c0") (chars "m0") (chars "i0")).title = chars "a"
    ∧ (chars "a" : List Char) ≠ chars "a---b" := by
  refine ⟨rfl, rfl, by decide⟩

/-- Witness for C8: both branches at concrete inputs — with a tag the title is
recovered from the frontmatter, without one from the H1 heading. -/
theorem create_then_index_title_witness :
    (index_file (create_note_file id [] (chars "/kb") (chars "note") (chars "body")
        (chars "tag")).1.1
      (dictGet (create_note_file id [] (chars "/kb") (chars "note") (chars "body")
          (chars "tag")).2
        ((create_note_file id [] (chars "/kb") (chars "note") (chars "body")
          (chars "tag")).1.1) [])
      (chars "c0") (chars "m0") (chars "i0")).title = chars "note"
    ∧ (index_file (create_note_file id [] (chars "/kb") (chars "note") (chars "body")
        []).1.1
      (dictGet (create_note_file id [] (chars "/kb") (chars "note") (chars "body")
          []).2
        ((create_note_file id [] (chars "/kb") (chars "note") (chars "body")
          []).1.1) [])
      (chars "c0") (chars "m0") (chars "i0")).title = chars "note" :=
  ⟨create_then_index_title id [] (chars "/kb") (chars "note") (chars "body")
      (chars "tag") (chars "c0") (chars "m0") (chars "i0")
      (by decide) (by decide) (by decide) (by decide) (by decide) (by decide)
      (by decide) (by decide) (by decide) (by decide) rfl,
    create_then_index_title id [] (chars "/kb") (chars "note") (chars "body")
      [] (chars "c0") (chars "m0") (chars "i0")
      (by decide) (by decide) (by decide) (by decide) (by decide) (by decide)
      (by decide) (by decide) (by decide) (by decide) rfl⟩

end KBMCP
